import Mathlib

/-!
Verification of the reading-assessment core of the Umeed backend,
shallowly embedded from `src/backend/advanced_reading_coach.py`.

Modelling conventions:
* Text is modelled at ASCII granularity: Python `str.lower`, the regex
  classes `\w` / `\s` and `str.split()` are embedded with their ASCII
  semantics (`Char.toLower`, alphanumeric-or-underscore, the six ASCII
  whitespace characters).
* Python floats are modelled as exact rationals (`ℚ`).
* `difflib.SequenceMatcher(None, a, b)` (as instantiated by the coach:
  `isjunk = None`, `autojunk = True`) is embedded in full: the `b2j`
  index with autojunk-popular elements removed, the longest-match
  dynamic program, the four extension loops (with the junk set empty,
  as `isjunk is None`), the matching-block recursion with merging of
  adjacent blocks, opcodes and `ratio()`.
* `np.random.uniform(0.6, 0.9)` (the prosody stub) is modelled by an
  explicit parameter carrying the drawn sample.
* Python `while` loops are embedded as fuel-indexed recursions whose
  initial fuel provably dominates the number of iterations.
-/

namespace UmeedCoach

/-! ## Text normalisation (`_normalize_text` and Python `str` helpers) -/

/-- ASCII model of Python whitespace (`\s`, `str.split()`). -/
def isPySpace (c : Char) : Bool :=
  c == ' ' || c == '\t' || c == '\n' || c == '\r' || c == '\x0b' || c == '\x0c'

/-- ASCII model of Python `str.lower` on one character. -/
def pyLowerChar (c : Char) : Char := c.toLower

/-- ASCII model of the regex class `\w`: alphanumeric or underscore.
    (Underscore IS a word character in Python's `\w`.) -/
def isPyWord (c : Char) : Bool := c.isAlphanum || c == '_'

/-- One step of splitting-on-whitespace, consumed by `List.foldr`. -/
def pySplitStep (c : Char) (r : List (List Char)) : List (List Char) :=
  if isPySpace c then [] :: r
  else match r with
    | [] => [[c]]
    | g :: gs => (c :: g) :: gs

/-- Whitespace-separated groups of `l`, possibly with empty groups. -/
def pySplitAux (l : List Char) : List (List Char) :=
  l.foldr pySplitStep []

/-- ASCII model of Python `str.split()` (no argument): split on runs of
    whitespace, discarding empty fields. -/
def pySplit (l : List Char) : List (List Char) :=
  (pySplitAux l).filter (fun g => !g.isEmpty)

/-- Embeds `str.split()` at the `String` level. -/
def pySplitStr (s : String) : List String :=
  (pySplit s.data).map (fun g => String.mk g)

/-- Embeds `' '.join(groups)` at the character level. -/
def joinSpaceChars : List (List Char) → List Char
  | [] => []
  | [g] => g
  | g :: g2 :: gs => g ++ ' ' :: joinSpaceChars (g2 :: gs)

/-- Embeds `_normalize_text`: `text = re.sub(r'[^\w\s]', '', text.lower())`
    followed by `' '.join(text.split())` (ASCII model).  Note the regex
    keeps every `\w` character, so underscores survive. -/
def normalize_text (s : String) : String :=
  let lowered := s.data.map pyLowerChar
  let subbed := lowered.filter (fun c => isPyWord c || isPySpace c)
  String.mk (joinSpaceChars (pySplit subbed))

/-- The word sequence the analyser actually compares:
    `self._normalize_text(x).split()`. -/
def normWords (s : String) : List String := pySplitStr (normalize_text s)

/-- Normalisation as claim C6 (amended) words it: lowercase, remove every
    character that is not alphanumeric, underscore or whitespace, then
    split on whitespace.  (Spec-side reformulation, to be proved equal
    to the source-side `normWords`.) -/
def normalizeSpecWords (s : String) : List String :=
  ((pySplit ((s.data.map pyLowerChar).filter
      (fun c => isPyWord c || isPySpace c))).map (fun g => String.mk g))

/-! ## `difflib.SequenceMatcher(None, a, b)`

The coach constructs `SequenceMatcher(None, expected_words,
transcribed_words)`.  With `isjunk = None` the junk set `self.bjunk`
is empty (`junkB` is instantiated to `fun _ => false` below; it is kept
as a parameter because `find_longest_match` consults it in its
extension loops), while `autojunk = True` removes "popular" elements of
`b` from the `b2j` index. -/

/-- Number of occurrences of `x` in `b`. -/
def countOcc (b : List String) (x : String) : ℕ :=
  (b.filter (fun y => y == x)).length

/-- The autojunk rule of `SequenceMatcher.__chain_b`: when
    `len(b) >= 200`, elements occurring more than `len(b) // 100 + 1`
    times are popular and removed from `b2j`. -/
def autoPopular (b : List String) (x : String) : Bool :=
  decide (200 ≤ b.length) && decide (b.length / 100 + 1 < countOcc b x)

/-- Ascending occurrence positions of `x` in `b`. -/
def positionsOf (b : List String) (x : String) : List ℕ :=
  (List.range b.length).filter (fun j => b.getD j ("") == x)

/-- Embeds `self.b2j` after `__chain_b`: occurrence positions of each element,
    with autojunk-popular elements removed entirely. -/
def b2j (b : List String) (x : String) : List ℕ :=
  if autoPopular b x then [] else positionsOf b x

/-- State of the `find_longest_match` dynamic program: the `j2len`
    dictionary (total function, absent keys read 0) and the best match
    found so far. -/
structure FlmState where
  j2len : ℕ → ℕ
  besti : ℕ
  bestj : ℕ
  bestsize : ℕ

/-- Embeds `j2len.get(j - 1, 0)` — Python's `-1` key is absent, hence 0. -/
def prevLen (f : ℕ → ℕ) (j : ℕ) : ℕ := if j = 0 then 0 else f (j - 1)

/-- The candidates Python actually visits in row `i`: the ascending
    list `b2j[a[i]]` restricted to `blo ≤ j < bhi` (the `continue` /
    `break` guards on a sorted list amount to a filter). -/
def rowCandidates (blo bhi : ℕ) (js : List ℕ) : List ℕ :=
  js.filter (fun j => decide (blo ≤ j) && decide (j < bhi))

/-- Embeds `k = newj2len[j] = j2len.get(j-1, 0) + 1`. -/
def flmCand (j2len : ℕ → ℕ) (j : ℕ) : ℕ := prevLen j2len j + 1

/-- Embeds `if k > bestsize: besti, bestj, bestsize = i-k+1, j-k+1, k`. -/
def flmBestStep (j2len : ℕ → ℕ) (i : ℕ) (bst : ℕ × ℕ × ℕ) (j : ℕ) :
    ℕ × ℕ × ℕ :=
  if bst.2.2 < flmCand j2len j then
    (i + 1 - flmCand j2len j, j + 1 - flmCand j2len j, flmCand j2len j)
  else bst

/-- One row `i` of the dynamic program: build `newj2len` from the
    previous row and promote any strictly larger match. -/
def flmRow (blo bhi : ℕ) (js : List ℕ) (st : FlmState) (i : ℕ) : FlmState :=
  ⟨fun j => if j ∈ rowCandidates blo bhi js then flmCand st.j2len j else 0,
   (List.foldl (flmBestStep st.j2len i) (st.besti, st.bestj, st.bestsize)
     (rowCandidates blo bhi js)).1,
   (List.foldl (flmBestStep st.j2len i) (st.besti, st.bestj, st.bestsize)
     (rowCandidates blo bhi js)).2.1,
   (List.foldl (flmBestStep st.j2len i) (st.besti, st.bestj, st.bestsize)
     (rowCandidates blo bhi js)).2.2⟩

/-- The row loop of `find_longest_match`, from the initial state
    `besti, bestj, bestsize = alo, blo, 0` with an empty `j2len`. -/
def flmLoop (a b : List String) (alo ahi blo bhi : ℕ) : FlmState :=
  (List.range' alo (ahi - alo)).foldl
    (fun st i => flmRow blo bhi (b2j b (a.getD i (""))) st i)
    ⟨fun _ => 0, alo, blo, 0⟩

/-- The two backward extension `while` loops of `find_longest_match`
    (`wantJunk = false` for the non-junk loop, `true` for the junk
    loop), fuel-indexed.  Each iteration needs `besti > alo ≥ 0` and
    decrements `besti`, so fuel `besti` makes this equal to the
    unbounded loop. -/
def extendBack (a b : List String) (junkB : String → Bool) (wantJunk : Bool)
    (alo blo : ℕ) : ℕ → ℕ → ℕ → ℕ → ℕ × ℕ × ℕ
  | 0, besti, bestj, bestsize => (besti, bestj, bestsize)
  | fuel + 1, besti, bestj, bestsize =>
    if alo < besti ∧ blo < bestj ∧
        junkB (b.getD (bestj - 1) "") = wantJunk ∧
        a.getD (besti - 1) "" = b.getD (bestj - 1) "" then
      extendBack a b junkB wantJunk alo blo fuel
        (besti - 1) (bestj - 1) (bestsize + 1)
    else (besti, bestj, bestsize)

/-- The two forward extension `while` loops, fuel-indexed.  Each
    iteration needs `besti + bestsize < ahi` and increments `bestsize`,
    so fuel `ahi` dominates the iteration count. -/
def extendFwd (a b : List String) (junkB : String → Bool) (wantJunk : Bool)
    (ahi bhi besti bestj : ℕ) : ℕ → ℕ → ℕ
  | 0, bestsize => bestsize
  | fuel + 1, bestsize =>
    if besti + bestsize < ahi ∧ bestj + bestsize < bhi ∧
        junkB (b.getD (bestj + bestsize) "") = wantJunk ∧
        a.getD (besti + bestsize) "" = b.getD (bestj + bestsize) "" then
      extendFwd a b junkB wantJunk ahi bhi besti bestj fuel (bestsize + 1)
    else bestsize

/-- Embeds `SequenceMatcher.find_longest_match(alo, ahi, blo, bhi)`: dynamic
    program, then extend around the best match — first with non-junk
    elements, then with junk elements, backwards and forwards. -/
def find_longest_match (a b : List String) (junkB : String → Bool)
    (alo ahi blo bhi : ℕ) : ℕ × ℕ × ℕ :=
  let st := flmLoop a b alo ahi blo bhi
  let p1 := extendBack a b junkB false alo blo st.besti
    st.besti st.bestj st.bestsize
  let k2 := extendFwd a b junkB false ahi bhi p1.1 p1.2.1 ahi p1.2.2
  let p3 := extendBack a b junkB true alo blo p1.1 p1.1 p1.2.1 k2
  let k4 := extendFwd a b junkB true ahi bhi p3.1 p3.2.1 ahi p3.2.2
  (p3.1, p3.2.1, k4)

/-- The worklist recursion of `get_matching_blocks`, fuel-indexed and
    in sorted order (difflib pushes subranges on a queue and sorts the
    collected blocks; in-order recursion produces that sorted list
    directly).  Every recursive call strictly shrinks
    `(ahi - alo) + (bhi - blo)`, so fuel `la + lb + 1` suffices. -/
def blocksAux (a b : List String) (junkB : String → Bool) :
    ℕ → ℕ → ℕ → ℕ → ℕ → List (ℕ × ℕ × ℕ)
  | 0, _, _, _, _ => []
  | fuel + 1, alo, ahi, blo, bhi =>
    let m := find_longest_match a b junkB alo ahi blo bhi
    if m.2.2 = 0 then []
    else
      (if alo < m.1 ∧ blo < m.2.1 then
          blocksAux a b junkB fuel alo m.1 blo m.2.1
        else [])
        ++ [m]
        ++ (if m.1 + m.2.2 < ahi ∧ m.2.1 + m.2.2 < bhi then
              blocksAux a b junkB fuel (m.1 + m.2.2) ahi (m.2.1 + m.2.2) bhi
            else [])

/-- The final pass of `get_matching_blocks`: collapse adjacent blocks
    (`i1 + k1 == i2 and j1 + k1 == j2`), starting from the zero
    accumulator. -/
def mergeBlocks : ℕ × ℕ × ℕ → List (ℕ × ℕ × ℕ) → List (ℕ × ℕ × ℕ)
  | acc, [] => if acc.2.2 ≠ 0 then [acc] else []
  | acc, m :: rest =>
    if acc.1 + acc.2.2 = m.1 ∧ acc.2.1 + acc.2.2 = m.2.1 then
      mergeBlocks (acc.1, acc.2.1, acc.2.2 + m.2.2) rest
    else
      (if acc.2.2 ≠ 0 then [acc] else []) ++ mergeBlocks m rest

/-- Embeds `SequenceMatcher.get_matching_blocks()`, including the terminating
    sentinel `(la, lb, 0)`. -/
def get_matching_blocks (a b : List String) (junkB : String → Bool) :
    List (ℕ × ℕ × ℕ) :=
  mergeBlocks (0, 0, 0)
    (blocksAux a b junkB (a.length + b.length + 1) 0 a.length 0 b.length)
    ++ [(a.length, b.length, 0)]

/-- One entry of `get_opcodes()`. -/
structure Opcode where
  tag : String
  a1 : ℕ
  a2 : ℕ
  b1 : ℕ
  b2 : ℕ
  deriving DecidableEq

/-- The opcode loop of `get_opcodes()`: emit the gap before each block
    (replace / delete / insert) and then the block itself as `equal`. -/
def opcodesAux : ℕ → ℕ → List (ℕ × ℕ × ℕ) → List Opcode
  | _, _, [] => []
  | i, j, m :: rest =>
    let gap : List Opcode :=
      if i < m.1 ∧ j < m.2.1 then [⟨"replace", i, m.1, j, m.2.1⟩]
      else if i < m.1 then [⟨"delete", i, m.1, j, m.2.1⟩]
      else if j < m.2.1 then [⟨"insert", i, m.1, j, m.2.1⟩]
      else []
    let eqs : List Opcode :=
      if m.2.2 ≠ 0 then [⟨"equal", m.1, m.1 + m.2.2, m.2.1, m.2.1 + m.2.2⟩]
      else []
    gap ++ eqs ++ opcodesAux (m.1 + m.2.2) (m.2.1 + m.2.2) rest

/-- Embeds `SequenceMatcher.get_opcodes()`. -/
def get_opcodes (a b : List String) (junkB : String → Bool) : List Opcode :=
  opcodesAux 0 0 (get_matching_blocks a b junkB)

/-- Embeds `difflib._calculate_ratio`. -/
def calcRatio (nmatched len : ℕ) : ℚ :=
  if len ≠ 0 then 2 * (nmatched : ℚ) / (len : ℚ) else 1

/-- Total size of the matching blocks (`sum(triple[-1] ...)`). -/
def matchesTotal (blocks : List (ℕ × ℕ × ℕ)) : ℕ :=
  blocks.foldl (fun s m => s + m.2.2) 0

/-- Embeds `SequenceMatcher.ratio()`. -/
def ratioScore (a b : List String) (junkB : String → Bool) : ℚ :=
  calcRatio (matchesTotal (get_matching_blocks a b junkB))
    (a.length + b.length)

/-! ## `_analyze_reading_accuracy` -/

/-- One divergence, as built by `_analyze_reading_accuracy`:
    `type ∈ {substitution, omission, insertion}`, the joined expected /
    actual segments, and the reference-side position `i1`. -/
structure Mistake where
  mtype : String
  expected : String
  actual : String
  position : ℕ
  deriving DecidableEq

/-- Embeds `' '.join(words[i1:i2])`. -/
def joinWordsRange (ws : List String) (i1 i2 : ℕ) : String :=
  String.intercalate (" ") ((ws.drop i1).take (i2 - i1))

/-- The mistake built from one opcode (`equal` opcodes yield none). -/
def mistakeOfOpcode (ews tws : List String) (op : Opcode) : Option Mistake :=
  if op.tag = "replace" then
    some ⟨"substitution", joinWordsRange ews op.a1 op.a2,
      joinWordsRange tws op.b1 op.b2, op.a1⟩
  else if op.tag = "delete" then
    some ⟨"omission", joinWordsRange ews op.a1 op.a2, "", op.a1⟩
  else if op.tag = "insert" then
    some ⟨"insertion", "", joinWordsRange tws op.b1 op.b2, op.a1⟩
  else none

/-- The apostrophe character, used in the correction strings. -/
def sq : String := (Char.ofNat 39).toString

/-- The correction string generated for one mistake. -/
def correctionOf (m : Mistake) : String :=
  if m.mtype = "substitution" then
    "Try " ++ sq ++ m.expected ++ sq ++ " instead of " ++ sq ++ m.actual ++ sq
  else if m.mtype = "omission" then
    "Don" ++ sq ++ "t forget to read " ++ sq ++ m.expected ++ sq
  else
    "The word " ++ sq ++ m.actual ++ sq ++ " isn" ++ sq ++ "t in the text"

/-- The dictionary returned by `_analyze_reading_accuracy`.  There is
    no error or `insufficient_data` field: these five keys are all the
    function ever returns on its (always-taken) happy path. -/
structure AccuracyResult where
  accuracy_score : ℚ
  word_accuracy : ℤ
  total_words : ℕ
  mistakes : List Mistake
  corrections : List String

/-- The word-list core of `_analyze_reading_accuracy`:
    `SequenceMatcher(None, expected_words, transcribed_words)`, accuracy
    from `ratio()`, one mistake per non-equal opcode, one correction per
    mistake truncated to the first five. -/
def alignWords (expected_words transcribed_words : List String) :
    AccuracyResult :=
  let junkB : String → Bool := fun _ => false
  let ops := get_opcodes expected_words transcribed_words junkB
  let mistakes := ops.filterMap (mistakeOfOpcode expected_words transcribed_words)
  { accuracy_score := ratioScore expected_words transcribed_words junkB
    word_accuracy := (expected_words.length : ℤ) - (mistakes.length : ℤ)
    total_words := expected_words.length
    mistakes := mistakes
    corrections := (mistakes.map correctionOf).take 5 }

/-- Embeds `_analyze_reading_accuracy(transcribed, expected)`.  The body is
    pure and total, so the `except` fallback branch is dead code. -/
def analyze_reading_accuracy (transcribed expected : String) :
    AccuracyResult :=
  alignWords (normWords expected) (normWords transcribed)

/-! ## Fluency, prosody and trend -/

/-- Embeds `_classify_fluency_level`. -/
def classify_fluency_level (fluency_score : ℚ) : String :=
  if 9 / 10 ≤ fluency_score then ("advanced")
  else if 7 / 10 ≤ fluency_score then ("proficient")
  else if 1 / 2 ≤ fluency_score then ("developing")
  else ("beginning")

/-- The result dictionary of `_analyze_reading_fluency` (happy path;
    the body is total, so the `except` fallback is dead code). -/
structure FluencyResult where
  fluency_score : ℚ
  reading_speed : ℚ
  target_speed : ℚ
  prosody_score : ℚ
  fluency_level : String

/-- Embeds `_analyze_prosody` returns `np.random.uniform(0.6, 0.9)`: a random
    draw, modelled by an explicit parameter.  A draw is admissible when
    it lies in the sampled interval. -/
def prosodyAdmissible (r : ℚ) : Prop := 3 / 5 ≤ r ∧ r ≤ 9 / 10

/-- Embeds `_analyze_reading_fluency(audio_data, transcribed, expected)`,
    parametrised by the prosody draw `r` and with `audio_data`
    represented by its byte length (the code only uses
    `len(audio_data)`).  `estimated_duration = max(len(audio)/16000, 1)`,
    `wpm = words/duration*60`, speed ratio capped at 1.2, overall
    `0.7·speed + 0.3·prosody`. -/
def analyze_reading_fluency (audioLen : ℕ) (transcribed expected : String)
    (r : ℚ) : FluencyResult :=
  let transcribed_words : ℕ := (pySplitStr transcribed).length
  let _expected_words : ℕ := (pySplitStr expected).length
  let estimated_duration : ℚ := max ((audioLen : ℚ) / 16000) 1
  let wpm : ℚ := ((transcribed_words : ℚ) / estimated_duration) * 60
  let target_wpm : ℚ := 60
  let fluency_score : ℚ := min (wpm / target_wpm) (6 / 5)
  let overall_fluency : ℚ := fluency_score * (7 / 10) + r * (3 / 10)
  { fluency_score := overall_fluency
    reading_speed := wpm
    target_speed := target_wpm
    prosody_score := r
    fluency_level := classify_fluency_level overall_fluency }

/-- Ordinary least-squares slope of `ys` against `x = 0, 1, ..., n-1`:
    models `np.polyfit(x, values, 1)[0]` in exact arithmetic. -/
def polyfitSlope (ys : List ℚ) : ℚ :=
  let n : ℚ := ys.length
  let xs : List ℚ := (List.range ys.length).map (fun i => (i : ℚ))
  let sx := xs.sum
  let sy := ys.sum
  let sxy := ((xs.zip ys).map (fun p => p.1 * p.2)).sum
  let sxx := (xs.map (fun x => x * x)).sum
  (n * sxy - sx * sy) / (n * sxx - sx * sx)

/-- Embeds `_calculate_trend(values)`: fewer than TWO values yield "stable";
    otherwise classify the least-squares slope against ±0.01. -/
def calculate_trend (values : List ℚ) : String :=
  if values.length < 2 then ("stable")
  else
    let trend_slope := polyfitSlope values
    if 1 / 100 < trend_slope then ("improving")
    else if trend_slope < -(1 / 100) then ("declining")
    else ("stable")

/-! ## `_analyze_pronunciation` -/

/-- Embeds `text.lower().split()` — the word lists used by the pronunciation
    and phonics analyses (no punctuation stripping there). -/
def lowerWords (s : String) : List String :=
  pySplitStr (String.mk (s.data.map pyLowerChar))

/-- One pronunciation issue record. -/
structure PronIssue where
  word : String
  pronounced_as : String
  phonetic_similarity : ℚ
  position : ℕ

/-- Embeds `_calculate_phonetic_similarity` on two dmetaphone code pairs: zip
    the two 2-tuples, count positions where both codes are nonempty
    (Python truthiness), count matches among those; 0.0 when nothing
    was counted. -/
def calculate_phonetic_similarity (p q : String × String) : ℚ :=
  let pairs := [(p.1, q.1), (p.2, q.2)]
  let counted := pairs.filter (fun x => !(x.1 == "") && !(x.2 == ""))
  let total := counted.length
  let matched := (counted.filter (fun x => x.1 == x.2)).length
  if 0 < total then (matched : ℚ) / (total : ℚ) else 0

/-- The issue built (or not) from one indexed word pair: a textual
    mismatch whose phonetic similarity exceeds 0.5. -/
def pronIssueOf (encoder : String → String × String)
    (p : ℕ × String × String) : Option PronIssue :=
  if p.2.1 ≠ p.2.2 then
    if 1 / 2 < calculate_phonetic_similarity (encoder p.2.1) (encoder p.2.2)
    then
      some ⟨p.2.1, p.2.2,
        calculate_phonetic_similarity (encoder p.2.1) (encoder p.2.2), p.1⟩
    else none
  else none

/-- The result of `_analyze_pronunciation` (the feedback strings are
    not modelled; no claim concerns them). -/
structure PronunciationResult where
  pronunciation_score : ℚ
  pronunciation_issues : List PronIssue

/-- Embeds `_analyze_pronunciation(transcribed, expected, profile)`,
    parametrised by the external phonetic encoder
    (`phonetics.dmetaphone`, which returns a pair of codes).  The
    zipped word pairs are scanned with `enumerate`;
    `score = 1 − issues/max(len(expected_words), 1)`. -/
def analyze_pronunciation (encoder : String → String × String)
    (transcribed expected : String) : PronunciationResult :=
  let transcribed_words := lowerWords transcribed
  let expected_words := lowerWords expected
  let issues := ((expected_words.zip transcribed_words).enum).filterMap
    (pronIssueOf encoder)
  { pronunciation_score :=
      1 - (issues.length : ℚ) / ((max expected_words.length 1 : ℕ) : ℚ)
    pronunciation_issues := issues }

/-! ## `_analyze_phonics_patterns` -/

/-- One entry of the `_load_phonics_patterns()` catalog. -/
structure PhonicsPattern where
  pname : String
  patterns : List String
  examples : List String
  difficulty : ℕ

/-- Embeds `_load_phonics_patterns()` (a Python dict; its insertion order is
    the iteration order). -/
def phonics_patterns : List PhonicsPattern :=
  [ ⟨"short_vowels", ["a", "e", "i", "o", "u"],
      ["cat", "bed", "sit", "pot", "cut"], 1⟩,
    ⟨"long_vowels", ["a_e", "e_e", "i_e", "o_e", "u_e"],
      ["cake", "here", "bike", "hope", "cube"], 2⟩,
    ⟨"consonant_blends",
      ["bl", "br", "cl", "cr", "dr", "fl", "fr", "gl", "gr", "pl",
       "pr", "sc", "sk", "sl", "sm", "sn", "sp", "st", "sw", "tr"],
      ["blue", "tree", "clap", "crab", "drum", "flag", "frog", "glad",
       "green", "play"], 2⟩,
    ⟨"digraphs", ["ch", "sh", "th", "wh", "ph", "ck", "ng"],
      ["chair", "ship", "think", "whale", "phone", "duck", "ring"], 3⟩,
    ⟨"vowel_teams", ["ai", "ay", "ea", "ee", "ie", "oa", "ow", "ue"],
      ["rain", "play", "read", "tree", "pie", "boat", "show", "blue"], 3⟩,
    ⟨"r_controlled", ["ar", "er", "ir", "or", "ur"],
      ["car", "her", "bird", "for", "turn"], 4⟩ ]

/-- Python's substring test `pat in word`. -/
def subStrIn (pat w : String) : Bool :=
  (List.range (w.data.length + 1)).any
    (fun i => ((w.data.drop i).take pat.data.length) == pat.data)

/-- The per-category double loop of `_analyze_phonics_patterns`: for
    each zipped `(expected_word, transcribed_word)` pair and each
    pattern substring occurring in the expected word, bump `attempted`,
    and bump `correct` when the transcribed word equals the expected
    word. -/
def categoryScan (patterns : List String) (pairs : List (String × String)) :
    ℕ × ℕ :=
  pairs.foldl (fun acc p =>
    patterns.foldl (fun acc2 pat =>
      if subStrIn pat p.1 then
        (acc2.1 + 1, if p.1 = p.2 then acc2.2 + 1 else acc2.2)
      else acc2) acc) (0, 0)

/-- One row of `patterns_attempted`. -/
structure PatternStat where
  pattern : String
  attempts : ℕ
  correct : ℕ
  success_rate : ℚ

/-- The `phonics_analysis` dictionary (recommendations, which are a
    pure function of `patterns_struggling`, are not modelled; no claim
    concerns them). -/
structure PhonicsAnalysis where
  patterns_attempted : List PatternStat
  patterns_mastered : List String
  patterns_struggling : List String

/-- The fold step of `_analyze_phonics_patterns` over one catalog
    entry: categories with `attempted > 0` get a stat row, a mastered
    entry iff `success_rate ≥ 0.8`, `elif success_rate < 0.5` a
    struggling entry. -/
def phonicsStep (pairs : List (String × String)) (acc : PhonicsAnalysis)
    (c : PhonicsPattern) : PhonicsAnalysis :=
  let s := categoryScan c.patterns pairs
  if 0 < s.1 then
    { patterns_attempted := acc.patterns_attempted ++
        [⟨c.pname, s.1, s.2, (s.2 : ℚ) / (s.1 : ℚ)⟩]
      patterns_mastered := acc.patterns_mastered ++
        (if 4 / 5 ≤ (s.2 : ℚ) / (s.1 : ℚ) then [c.pname] else [])
      patterns_struggling := acc.patterns_struggling ++
        (if 4 / 5 ≤ (s.2 : ℚ) / (s.1 : ℚ) then []
         else if (s.2 : ℚ) / (s.1 : ℚ) < 1 / 2 then [c.pname] else []) }
  else acc

/-- Embeds `_analyze_phonics_patterns(transcribed, expected, profile)`. -/
def analyze_phonics_patterns (transcribed expected : String) :
    PhonicsAnalysis :=
  let expected_words := lowerWords expected
  let transcribed_words := lowerWords transcribed
  let pairs := expected_words.zip transcribed_words
  phonics_patterns.foldl (phonicsStep pairs) ⟨[], [], []⟩

/-- The stat row a category contributes, as the (amended) claim words
    it: `attempts` counts (reference word, matching pattern) pairs. -/
def statOf (pairs : List (String × String)) (c : PhonicsPattern) :
    Option PatternStat :=
  let s := categoryScan c.patterns pairs
  if 0 < s.1 then some ⟨c.pname, s.1, s.2, (s.2 : ℚ) / (s.1 : ℚ)⟩ else none

/-- Mastery as the claim words it: attempted and `success_rate ≥ 0.8`. -/
def masteredOf (pairs : List (String × String)) (c : PhonicsPattern) :
    Option String :=
  let s := categoryScan c.patterns pairs
  if 0 < s.1 ∧ 4 / 5 ≤ (s.2 : ℚ) / (s.1 : ℚ) then some c.pname else none

/-- Struggling as the claim words it: attempted and
    `success_rate < 0.5` (the source's `elif` guard `¬(rate ≥ 0.8)` is
    implied by `rate < 0.5`). -/
def strugglingOf (pairs : List (String × String)) (c : PhonicsPattern) :
    Option String :=
  let s := categoryScan c.patterns pairs
  if 0 < s.1 ∧ (s.2 : ℚ) / (s.1 : ℚ) < 1 / 2 then some c.pname else none

/-! ### Claim C7: identity alignment

`align(R, R)` must give accuracy 1 and no mistakes.  The work happens
at `find_longest_match a a junkB alo ahi alo ahi`: we show its best
match is always diagonal (`besti = bestj`), in range, and nonempty on a
nonempty range, for an arbitrary junk predicate (covering autojunk).
The dynamic program is handled by the invariant `InvDP` built around
`diagRun`, the length of the diagonal run of candidate positions. -/

/-- Position `j` can participate in a diagonal self-match of
    `find_longest_match a a · alo ahi alo ahi`: in range on both sides
    and not removed from `b2j` by autojunk. -/
def diagOK (a : List String) (alo ahi j : ℕ) : Prop :=
  alo ≤ j ∧ j < ahi ∧ j < a.length ∧ autoPopular a (a.getD j ("")) = false

instance (a : List String) (alo ahi j : ℕ) : Decidable (diagOK a alo ahi j) := by
  unfold diagOK
  infer_instance

/-- Length of the diagonal candidate run ending at `(j, j)`. -/
def diagRun (a : List String) (alo ahi : ℕ) : ℕ → ℕ
  | 0 => if diagOK a alo ahi 0 then 1 else 0
  | j + 1 =>
    if diagOK a alo ahi (j + 1) then
      (if j + 1 = alo then 1 else diagRun a alo ahi j + 1)
    else 0

/-- Invariant of the `find_longest_match` dynamic program on the
    identical diagonal range `(alo, ahi, alo, ahi)` of `a` against
    itself, holding before row `i` is processed (rows `alo..i-1`
    done): `j2len` is bounded by the diagonal runs and exact on the
    diagonal of the last processed row, and the best match so far is
    diagonal, in range, and dominates all processed diagonal runs. -/
structure InvDP (a : List String) (alo ahi i : ℕ) (st : FlmState) : Prop where
  h_le_diag : ∀ j, st.j2len j ≤ diagRun a alo ahi j
  h_le_pd : ∀ j, st.j2len j ≤
    (if i = alo then 0 else diagRun a alo ahi (i - 1))
  h_exact : st.j2len (i - 1) =
    (if i = alo then 0 else diagRun a alo ahi (i - 1))
  h_diag : st.besti = st.bestj
  h_lo : alo ≤ st.besti
  h_hi : st.besti + st.bestsize ≤ i
  h_zero : st.bestsize = 0 → st.besti = alo
  h_best : ∀ i2, alo ≤ i2 → i2 < i → diagRun a alo ahi i2 ≤ st.bestsize

/-- Predicate: `L` tiles the interval `[lo, hi)` with contiguous diagonal blocks. -/
def tiles : ℕ → ℕ → List (ℕ × ℕ × ℕ) → Prop
  | lo, hi, [] => lo = hi
  | lo, hi, m :: rest =>
    m.1 = lo ∧ m.2.1 = lo ∧ 1 ≤ m.2.2 ∧ tiles (lo + m.2.2) hi rest

/-! ## Claim theorems and supporting lemmas -/

/-! ### Round-trip lemmas: collapsing whitespace then splitting again
    yields the same word sequence as splitting directly. -/

theorem pySplitStep_nonspace (c : Char) (hc : isPySpace c = false)
    (g : List Char) (R : List (List Char)) :
    pySplitStep c (g :: R) = (c :: g) :: R := by
  simp [pySplitStep, hc]

theorem foldr_pySplitStep_nonspace (g : List Char)
    (hg : ∀ c ∈ g, isPySpace c = false) (R : List (List Char)) :
    g.foldr pySplitStep ([] :: R) = (g ++ []) :: R := by
  induction g with
  | nil => simp
  | cons c g ih =>
      have hc : isPySpace c = false := hg c (by simp)
      have ih2 := ih (fun d hd => hg d (by simp [hd]))
      simp only [List.foldr_cons, ih2]
      cases g with
      | nil => simp [pySplitStep, hc]
      | cons d g2 => simp [pySplitStep, hc]

theorem pySplitAux_all_nonspace (g : List Char) (hne : g ≠ [])
    (hg : ∀ c ∈ g, isPySpace c = false) :
    pySplitAux g = [g] := by
  induction g with
  | nil => exact absurd rfl hne
  | cons c g ih =>
      have hc : isPySpace c = false := hg c (by simp)
      cases g with
      | nil => simp [pySplitAux, pySplitStep, hc]
      | cons d g2 =>
          have ih2 := ih (by simp) (fun x hx => hg x (by simp [hx]))
          simp only [pySplitAux, List.foldr_cons] at ih2 ⊢
          rw [ih2, pySplitStep_nonspace c hc]

theorem pySplit_all_nonspace (g : List Char) (hne : g ≠ [])
    (hg : ∀ c ∈ g, isPySpace c = false) :
    pySplit g = [g] := by
  unfold pySplit
  rw [pySplitAux_all_nonspace g hne hg, List.filter_cons]
  have hbe : (!g.isEmpty) = true := by simpa [List.isEmpty_iff] using hne
  rw [if_pos hbe]
  rfl

/-- Splitting the space-joined groups recovers the groups, provided each
    group is nonempty and whitespace-free (as `pySplit` guarantees). -/
theorem pySplit_joinSpaceChars (gs : List (List Char))
    (h : ∀ g ∈ gs, g ≠ [] ∧ ∀ c ∈ g, isPySpace c = false) :
    pySplit (joinSpaceChars gs) = gs := by
  induction gs with
  | nil => simp [joinSpaceChars, pySplit, pySplitAux]
  | cons g gs ih =>
      cases gs with
      | nil =>
          obtain ⟨hne, hns⟩ := h g (List.mem_cons_self g _)
          simp [joinSpaceChars, pySplit_all_nonspace g hne hns]
      | cons g2 gs2 =>
          obtain ⟨hne, hns⟩ := h g (List.mem_cons_self g _)
          have ih2 := ih (fun x hx => h x (List.mem_cons_of_mem _ hx))
          show pySplit (g ++ ' ' :: joinSpaceChars (g2 :: gs2)) = g :: g2 :: gs2
          have hsp : List.foldr pySplitStep []
              (' ' :: joinSpaceChars (g2 :: gs2)) =
              [] :: List.foldr pySplitStep [] (joinSpaceChars (g2 :: gs2)) := by
            have hs : isPySpace ' ' = true := by decide
            simp [pySplitStep, hs]
          have haux : pySplitAux (g ++ ' ' :: joinSpaceChars (g2 :: gs2)) =
              (g ++ []) :: pySplitAux (joinSpaceChars (g2 :: gs2)) := by
            unfold pySplitAux
            rw [List.foldr_append, hsp]
            exact foldr_pySplitStep_nonspace g hns _
          unfold pySplit at ih2 ⊢
          rw [haux, List.append_nil, List.filter_cons]
          have hbe : (!g.isEmpty) = true := by simpa [List.isEmpty_iff] using hne
          rw [if_pos hbe, ih2]

theorem mem_pySplitAux_nonspace (l : List Char) :
    ∀ g ∈ pySplitAux l, ∀ c ∈ g, isPySpace c = false := by
  induction l with
  | nil => simp [pySplitAux]
  | cons x l ih =>
      intro g hg c hc
      have hfold : pySplitAux (x :: l) = pySplitStep x (pySplitAux l) := rfl
      rw [hfold] at hg
      by_cases hx : isPySpace x = true
      · rw [pySplitStep.eq_def, if_pos hx] at hg
        rcases List.mem_cons.mp hg with h1 | h2
        · subst h1; simp at hc
        · exact ih g h2 c hc
      · rw [pySplitStep.eq_def, if_neg hx] at hg
        rcases hmatch : pySplitAux l with _ | ⟨g0, gs0⟩
        · rw [hmatch] at hg
          simp at hg
          subst hg
          simp at hc
          subst hc
          simpa using hx
        · rw [hmatch] at hg
          rcases List.mem_cons.mp hg with h1 | h2
          · subst h1
            rcases List.mem_cons.mp hc with hc1 | hc2
            · subst hc1; simpa using hx
            · exact ih g0 (by rw [hmatch]; exact List.mem_cons_self _ _) c hc2
          · exact ih g (by rw [hmatch]; exact List.mem_cons_of_mem _ h2) c hc

theorem mem_pySplit_spec (l : List Char) :
    ∀ g ∈ pySplit l, g ≠ [] ∧ ∀ c ∈ g, isPySpace c = false := by
  intro g hg
  simp only [pySplit, List.mem_filter] at hg
  refine ⟨by simpa [List.isEmpty_iff] using hg.2, ?_⟩
  exact mem_pySplitAux_nonspace l g hg.1

/-- C6 (amended). Normalisation lowercases, removes every character
    that is not alphanumeric, underscore or whitespace (underscores are
    word characters and survive), collapses whitespace and splits; the
    word list obtained from the normalised string equals the direct
    split of the filtered lowered text, and the empty string yields the
    empty word sequence. -/
theorem normalize_text_words_spec :
    (∀ s : String, normWords s = normalizeSpecWords s) ∧
      normWords ("") = [] := by
  constructor
  · intro s
    unfold normWords pySplitStr normalize_text normalizeSpecWords
    rw [pySplit_joinSpaceChars _ (mem_pySplit_spec _)]
  · rfl

/-- C6 (counterexample). The claim asserts underscores are removed;
    the source's regex `[^\w\s]` keeps them: normalising `"a_b"` yields
    the single word `"a_b"`, not `"ab"`. -/
theorem normalize_text_keeps_underscore :
    normWords ("a_b") = [("a_b" : String)] ∧
      normWords ("a_b") ≠ [("ab" : String)] := by
  constructor <;> decide

theorem alignWords_score (ews tws : List String) :
    (alignWords ews tws).accuracy_score =
      ratioScore ews tws (fun _ => false) := rfl

theorem alignWords_mistakes (ews tws : List String) :
    (alignWords ews tws).mistakes =
      (get_opcodes ews tws (fun _ => false)).filterMap
        (mistakeOfOpcode ews tws) := rfl

theorem alignWords_corrections (ews tws : List String) :
    (alignWords ews tws).corrections =
      ((alignWords ews tws).mistakes.map correctionOf).take 5 := rfl

theorem analyze_reading_accuracy_def (t e : String) :
    analyze_reading_accuracy t e = alignWords (normWords e) (normWords t) := rfl

/-- With an empty reference side, the matching blocks are just the
    sentinel. -/
theorem get_matching_blocks_nil_left (b : List String)
    (junkB : String → Bool) :
    get_matching_blocks [] b junkB = [(0, b.length, 0)] := rfl

/-- With an empty reference and a nonempty transcript, the sole opcode
    is one `insert` spanning the whole transcript. -/
theorem get_opcodes_nil_left (b : List String) (junkB : String → Bool)
    (hb : b ≠ []) :
    get_opcodes [] b junkB = [⟨"insert", 0, 0, 0, b.length⟩] := by
  rw [get_opcodes, get_matching_blocks_nil_left]
  have h0 : 0 < b.length := List.length_pos.mpr hb
  unfold opcodesAux
  simp [h0, opcodesAux]

/-! ### Claim C1 -/

/-- C1 (counterexample). For reference "the cat sat on the mat" and
    transcript "the cat sat the mat", the code's accuracy is
    `SequenceMatcher.ratio() = 2·5/(6+5) = 10/11`, not the claimed
    `5/6 = matched/len(reference)`. -/
theorem scenarioC_accuracy_not_five_sixths :
    (analyze_reading_accuracy ("the cat sat the mat")
      ("the cat sat on the mat")).accuracy_score ≠ 5 / 6 := by
  have hb : get_matching_blocks (normWords ("the cat sat on the mat"))
      (normWords ("the cat sat the mat")) (fun _ => false) =
      [(0, 0, 3), (4, 3, 2), (6, 5, 0)] := by decide
  rw [analyze_reading_accuracy_def, alignWords_score, ratioScore, hb]
  have hle : (normWords ("the cat sat on the mat")).length = 6 := by decide
  have hlt : (normWords ("the cat sat the mat")).length = 5 := by decide
  rw [hle, hlt]
  show calcRatio 5 11 ≠ 5 / 6
  rw [calcRatio]
  norm_num

/-- C1 (amended). The accuracy returned by the reading-accuracy
    analysis is `SequenceMatcher.ratio()`, i.e.
    `2·M / (len(reference_words) + len(transcript_words))`, so
    insertions in the transcript DO reduce accuracy.  Scenario C
    (reference "the cat sat on the mat", transcript "the cat sat the
    mat") yields exactly one omission mistake
    `{expected: "on", actual: "", position: 3}` as claimed, but its
    accuracy is `10/11`, not `5/6`; and a pure insertion ("a x b"
    against reference "a b") drops accuracy to `4/5`. -/
theorem scenarioC_accuracy_ratio :
    (analyze_reading_accuracy ("the cat sat the mat")
        ("the cat sat on the mat")).mistakes =
      [⟨"omission", "on", "", 3⟩] ∧
    (analyze_reading_accuracy ("the cat sat the mat")
        ("the cat sat on the mat")).accuracy_score = 10 / 11 ∧
    (analyze_reading_accuracy ("a x b") ("a b")).accuracy_score = 4 / 5 := by
  refine ⟨by decide, ?_, ?_⟩
  · have hb : get_matching_blocks (normWords ("the cat sat on the mat"))
        (normWords ("the cat sat the mat")) (fun _ => false) =
        [(0, 0, 3), (4, 3, 2), (6, 5, 0)] := by decide
    rw [analyze_reading_accuracy_def, alignWords_score, ratioScore, hb]
    have hle : (normWords ("the cat sat on the mat")).length = 6 := by decide
    have hlt : (normWords ("the cat sat the mat")).length = 5 := by decide
    rw [hle, hlt]
    show calcRatio 5 11 = 10 / 11
    rw [calcRatio]
    norm_num
  · have hb : get_matching_blocks (normWords ("a b"))
        (normWords ("a x b")) (fun _ => false) =
        [(0, 0, 1), (1, 2, 1), (2, 3, 0)] := by decide
    rw [analyze_reading_accuracy_def, alignWords_score, ratioScore, hb]
    have hle : (normWords ("a b")).length = 2 := by decide
    have hlt : (normWords ("a x b")).length = 3 := by decide
    rw [hle, hlt]
    show calcRatio 2 5 = 4 / 5
    rw [calcRatio]
    norm_num

/-! ### Claim C2 -/

/-- C2 (counterexample). With an empty reference the analysis does
    not return an empty mistakes list (a nonempty transcript is
    reported as one big insertion), and against an empty transcript the
    accuracy is `1.0`, not `0.0` (difflib's ratio of two empty
    sequences); there is no `insufficient_data` flag anywhere in the
    returned record. -/
theorem empty_reference_counterexample :
    (analyze_reading_accuracy ("hello world") ("")).mistakes ≠ [] ∧
    (analyze_reading_accuracy ("") ("")).accuracy_score = 1 := by
  constructor
  · decide
  · rw [analyze_reading_accuracy_def, alignWords_score]
    show calcRatio 0 0 = 1
    rw [calcRatio]
    norm_num

/-- C2 (amended). With an empty reference the aligner still returns
    (its body is a total function, so it never raises): the accuracy is
    `0.0` whenever the normalised transcript is nonempty, but the
    mistakes list is NOT empty — it holds exactly one insertion mistake
    spanning the whole transcript — and no error or
    `insufficient_data` flag exists (`AccuracyResult` has no such
    field).  (When the transcript is also empty, accuracy is `1.0`; see
    the counterexample.) -/
theorem empty_reference_behavior (t : String) (h : normWords t ≠ []) :
    (analyze_reading_accuracy t ("")).accuracy_score = 0 ∧
    (analyze_reading_accuracy t ("")).mistakes =
      [⟨"insertion", "",
        joinWordsRange (normWords t) 0 ((normWords t).length), 0⟩] := by
  have hew : normWords ("") = [] := rfl
  have hm : (normWords t).length ≠ 0 := by
    simpa [List.length_eq_zero] using h
  constructor
  · rw [analyze_reading_accuracy_def, alignWords_score, hew, ratioScore,
      get_matching_blocks_nil_left]
    show calcRatio 0 (0 + (normWords t).length) = 0
    rw [calcRatio]
    simp [hm]
  · rw [analyze_reading_accuracy_def, alignWords_mistakes, hew,
      get_opcodes_nil_left _ _ h]
    rfl

/-- Witness for C2 (amended) at the concrete transcript "hello". -/
theorem empty_reference_behavior_witness :
    (analyze_reading_accuracy ("hello") ("")).accuracy_score = 0 ∧
    (analyze_reading_accuracy ("hello") ("")).mistakes =
      [⟨"insertion", "",
        joinWordsRange (normWords ("hello")) 0
          ((normWords ("hello")).length), 0⟩] :=
  empty_reference_behavior ("hello") (by decide)

theorem analyze_reading_fluency_speed (n : ℕ) (t e : String) (r : ℚ) :
    (analyze_reading_fluency n t e r).reading_speed =
      (((pySplitStr t).length : ℚ) / max ((n : ℚ) / 16000) 1) * 60 := rfl

theorem analyze_reading_fluency_score_eq (n : ℕ) (t e : String) (r : ℚ) :
    (analyze_reading_fluency n t e r).fluency_score =
      min ((((pySplitStr t).length : ℚ) / max ((n : ℚ) / 16000) 1) * 60 / 60)
          (6 / 5) * (7 / 10) + r * (3 / 10) := rfl

theorem analyze_reading_fluency_level_eq (n : ℕ) (t e : String) (r : ℚ) :
    (analyze_reading_fluency n t e r).fluency_level =
      classify_fluency_level
        ((analyze_reading_fluency n t e r).fluency_score) := rfl

/-! ### Claim C3 -/

/-- C3 (counterexample). A two-session history is NOT always
    "stable": `_calculate_trend` only requires two points before
    fitting a slope, so `[0, 1]` (a history of fewer than 3 sessions)
    already classifies as "improving". -/
theorem trend_two_values_not_stable :
    ([(0 : ℚ), 1].length < 3) ∧
      calculate_trend [0, 1] = "improving" ∧
      calculate_trend [0, 1] ≠ "stable" := by
  have hs : polyfitSlope [0, 1] = 1 := by
    rw [polyfitSlope]
    simp [List.range_succ]
    norm_num
  have ht : calculate_trend [0, 1] = "improving" := by
    rw [calculate_trend]
    simp only [List.length_cons, List.length_nil]
    rw [if_neg (by norm_num), hs, if_pos (by norm_num)]
  refine ⟨by norm_num, ht, ?_⟩
  rw [ht]
  decide

/-- C3 (amended). The insufficient-data cutoff is at two points,
    not three: for every history of fewer than 2 session values the
    trend is "stable" regardless of the values; with exactly 2 values
    the slope is fitted and the result can already be "improving" or
    "declining". -/
theorem trend_fewer_than_two_stable (values : List ℚ)
    (h : values.length < 2) : calculate_trend values = "stable" := by
  rw [calculate_trend, if_pos h]

/-- Witness for C3 (amended) at the empty history. -/
theorem trend_fewer_than_two_stable_witness :
    calculate_trend [] = "stable" :=
  trend_fewer_than_two_stable [] (by simp)

/-! ### Claim C4 -/

/-- C4 (counterexample). On a zero-word transcript the fluency
    analysis returns speed 0 but NOT `fluency_score = 0`: the score is
    `0.3 · prosody` for the random prosody draw (here an admissible
    draw of 0.7 gives 0.21). -/
theorem zero_words_fluency_score_nonzero :
    prosodyAdmissible (7 / 10) ∧
    (analyze_reading_fluency 16000 ("") ("x") (7 / 10)).reading_speed = 0 ∧
    (analyze_reading_fluency 16000 ("") ("x") (7 / 10)).fluency_score ≠ 0 := by
  have hlen : ((pySplitStr ("")).length : ℚ) = 0 := by norm_num [pySplitStr, pySplit, pySplitAux]
  refine ⟨⟨by norm_num, by norm_num⟩, ?_, ?_⟩
  · rw [analyze_reading_fluency_speed, hlen]
    norm_num
  · rw [analyze_reading_fluency_score_eq, hlen]
    norm_num

/-- C4 (amended). On a zero-word transcript and any admissible
    prosody draw `r`, the fluency analysis returns (without raising —
    its body is total): `speed_wpm = 0`, `level = "beginning"`, and
    `fluency_score = 0.3·r ∈ [0.18, 0.27]` — not 0. -/
theorem zero_words_fluency (audioLen : ℕ) (t e : String) (r : ℚ)
    (ht : pySplitStr t = []) (h1 : 3 / 5 ≤ r) (h2 : r ≤ 9 / 10) :
    (analyze_reading_fluency audioLen t e r).reading_speed = 0 ∧
    (analyze_reading_fluency audioLen t e r).fluency_level = "beginning" ∧
    (analyze_reading_fluency audioLen t e r).fluency_score = r * (3 / 10) := by
  have hlen : ((pySplitStr t).length : ℚ) = 0 := by rw [ht]; norm_num
  have hscore : (analyze_reading_fluency audioLen t e r).fluency_score =
      r * (3 / 10) := by
    rw [analyze_reading_fluency_score_eq, hlen]
    have hmax : (1 : ℚ) ≤ max ((audioLen : ℚ) / 16000) 1 := le_max_right _ _
    rw [zero_div, zero_mul, zero_div]
    norm_num
  refine ⟨?_, ?_, hscore⟩
  · rw [analyze_reading_fluency_speed, hlen, zero_div, zero_mul]
  · rw [analyze_reading_fluency_level_eq, hscore, classify_fluency_level]
    have hub : r * (3 / 10) ≤ 27 / 100 := by nlinarith
    rw [if_neg (by linarith), if_neg (by linarith), if_neg (by linarith)]

/-- Witness for C4 (amended) at 16000 audio bytes, empty transcript,
    draw 0.7. -/
theorem zero_words_fluency_witness :
    (analyze_reading_fluency 16000 ("") ("x") (3 / 5)).reading_speed = 0 ∧
    (analyze_reading_fluency 16000 ("") ("x") (3 / 5)).fluency_level =
      "beginning" ∧
    (analyze_reading_fluency 16000 ("") ("x") (3 / 5)).fluency_score =
      (3 / 5) * (3 / 10) :=
  zero_words_fluency 16000 ("") ("x") (3 / 5) (by decide)
    (by norm_num) (by norm_num)

/-! ### Claim C5 -/

/-- C5 (counterexample). The analysis pipeline is NOT a
    deterministic function of its audio/transcript/reference input:
    `_analyze_prosody` draws `np.random.uniform(0.6, 0.9)`, and two
    admissible draws on the identical input give different
    fluency scores (here 0.88 versus 0.97). -/
theorem prosody_draw_changes_output :
    prosodyAdmissible (3 / 5) ∧ prosodyAdmissible (9 / 10) ∧
    (analyze_reading_fluency 32000 ("the cat") ("the cat")
        (3 / 5)).fluency_score ≠
      (analyze_reading_fluency 32000 ("the cat") ("the cat")
        (9 / 10)).fluency_score := by
  have hlen : ((pySplitStr ("the cat")).length : ℚ) = 2 := by
    have : (pySplitStr ("the cat")).length = 2 := by decide
    rw [this]; norm_num
  refine ⟨⟨by norm_num, by norm_num⟩, ⟨by norm_num, by norm_num⟩, ?_⟩
  rw [analyze_reading_fluency_score_eq, analyze_reading_fluency_score_eq, hlen]
  norm_num

/-- C5 (amended). The normalisation/alignment/pronunciation stages
    are deterministic functions of the text inputs, but the fluency
    stage depends injectively on the prosody random draw: for any two
    distinct admissible draws on the same audio/transcript/reference
    input, the two runs return different fluency scores, so
    run-to-run determinism fails exactly there. -/
theorem fluency_depends_on_prosody_draw (audioLen : ℕ) (t e : String)
    (r₁ r₂ : ℚ) (h1 : prosodyAdmissible r₁) (h2 : prosodyAdmissible r₂)
    (hne : r₁ ≠ r₂) :
    (analyze_reading_fluency audioLen t e r₁).fluency_score ≠
      (analyze_reading_fluency audioLen t e r₂).fluency_score := by
  rw [analyze_reading_fluency_score_eq, analyze_reading_fluency_score_eq]
  intro h
  apply hne
  have h3 := add_left_cancel h
  exact mul_right_cancel₀ (by norm_num) h3

/-- Witness for C5 (amended) at draws 0.6 and 0.7. -/
theorem fluency_depends_on_prosody_draw_witness :
    (analyze_reading_fluency 16000 ("hi") ("hi") (3 / 5)).fluency_score ≠
      (analyze_reading_fluency 16000 ("hi") ("hi") (7 / 10)).fluency_score :=
  fluency_depends_on_prosody_draw 16000 ("hi") ("hi") (3 / 5) (7 / 10)
    ⟨by norm_num, by norm_num⟩ ⟨by norm_num, by norm_num⟩ (by norm_num)

theorem analyze_pronunciation_issues (encoder : String → String × String)
    (t e : String) :
    (analyze_pronunciation encoder t e).pronunciation_issues =
      (((lowerWords e).zip (lowerWords t)).enum).filterMap
        (pronIssueOf encoder) := rfl

theorem analyze_pronunciation_score (encoder : String → String × String)
    (t e : String) :
    (analyze_pronunciation encoder t e).pronunciation_score =
      1 - (((analyze_pronunciation encoder t e).pronunciation_issues.length : ℚ) /
        (((max (lowerWords e).length 1 : ℕ) : ℚ)) ) := rfl

theorem pronIssueOf_position (encoder : String → String × String)
    (p : ℕ × String × String) (iss : PronIssue)
    (h : pronIssueOf encoder p = some iss) : iss.position = p.1 := by
  unfold pronIssueOf at h
  by_cases h1 : p.2.1 ≠ p.2.2
  · rw [if_pos h1] at h
    by_cases h2 : 1 / 2 <
        calculate_phonetic_similarity (encoder p.2.1) (encoder p.2.2)
    · rw [if_pos h2] at h
      injection h with h3
      rw [← h3]
    · rw [if_neg h2] at h
      exact absurd h (by simp)
  · rw [if_neg h1] at h
    exact absurd h (by simp)

/-! ### Claim C9 -/

/-- C9 (confirmed). Pronunciation-issue detection only examines
    word positions present in both sequences: the number of issues
    never exceeds `min(len(expected_words), len(transcribed_words))`,
    every reported position is below that bound (reference words beyond
    the transcript are never flagged), and the pronunciation score
    `1 − issues/max(len(expected_words), 1)` lies in `[0, 1]` — for
    every transcript/reference pair and every phonetic encoder. -/
theorem pronunciation_issue_bounds (encoder : String → String × String)
    (transcribed expected : String) :
    (analyze_pronunciation encoder transcribed
        expected).pronunciation_issues.length ≤
      min (lowerWords expected).length (lowerWords transcribed).length ∧
    ((analyze_pronunciation encoder transcribed
        expected).pronunciation_issues.all
      (fun iss => decide (iss.position <
        min (lowerWords expected).length (lowerWords transcribed).length)))
      = true ∧
    0 ≤ (analyze_pronunciation encoder transcribed
        expected).pronunciation_score ∧
    (analyze_pronunciation encoder transcribed
        expected).pronunciation_score ≤ 1 := by
  have hlen : (analyze_pronunciation encoder transcribed
      expected).pronunciation_issues.length ≤
      min (lowerWords expected).length (lowerWords transcribed).length := by
    rw [analyze_pronunciation_issues]
    calc ((((lowerWords expected).zip (lowerWords transcribed)).enum).filterMap
          (pronIssueOf encoder)).length
        ≤ (((lowerWords expected).zip (lowerWords transcribed)).enum).length :=
          List.length_filterMap_le _ _
      _ = ((lowerWords expected).zip (lowerWords transcribed)).length := by
          rw [List.enum_length]
      _ = min (lowerWords expected).length (lowerWords transcribed).length :=
          List.length_zip _ _
  refine ⟨hlen, ?_, ?_, ?_⟩
  · rw [List.all_eq_true]
    intro iss hiss
    rw [analyze_pronunciation_issues] at hiss
    obtain ⟨p, hp, hsome⟩ := List.mem_filterMap.mp hiss
    have hpos := pronIssueOf_position encoder p iss hsome
    have hfst : p.1 < ((lowerWords expected).zip
        (lowerWords transcribed)).length := List.fst_lt_of_mem_enum hp
    rw [List.length_zip] at hfst
    simp [hpos, hfst]
  · rw [analyze_pronunciation_score]
    have hm : (0 : ℚ) < ((max (lowerWords expected).length 1 : ℕ) : ℚ) := by
      have : 0 < max (lowerWords expected).length 1 := by omega
      exact_mod_cast this
    have hk : ((analyze_pronunciation encoder transcribed
        expected).pronunciation_issues.length : ℚ) ≤
        ((max (lowerWords expected).length 1 : ℕ) : ℚ) := by
      have h1 : (analyze_pronunciation encoder transcribed
          expected).pronunciation_issues.length ≤
          max (lowerWords expected).length 1 := by
        have := hlen
        omega
      exact_mod_cast h1
    have := div_le_one_of_le₀ hk (le_of_lt hm)
    linarith
  · rw [analyze_pronunciation_score]
    have hm : (0 : ℚ) ≤ ((max (lowerWords expected).length 1 : ℕ) : ℚ) := by
      positivity
    have hk : (0 : ℚ) ≤ ((analyze_pronunciation encoder transcribed
        expected).pronunciation_issues.length : ℚ) := by positivity
    have := div_nonneg hk hm
    linarith

theorem phonicsStep_fold_spec (pairs : List (String × String))
    (cats : List PhonicsPattern) (acc : PhonicsAnalysis) :
    cats.foldl (phonicsStep pairs) acc =
      ⟨acc.patterns_attempted ++ cats.filterMap (statOf pairs),
       acc.patterns_mastered ++ cats.filterMap (masteredOf pairs),
       acc.patterns_struggling ++ cats.filterMap (strugglingOf pairs)⟩ := by
  induction cats generalizing acc with
  | nil => simp
  | cons c cats ih =>
      rw [List.foldl_cons, ih]
      by_cases h1 : 0 < (categoryScan c.patterns pairs).1
      · have hstat : statOf pairs c =
            some ⟨c.pname, (categoryScan c.patterns pairs).1,
              (categoryScan c.patterns pairs).2,
              ((categoryScan c.patterns pairs).2 : ℚ) /
                ((categoryScan c.patterns pairs).1 : ℚ)⟩ := by
          rw [statOf, if_pos h1]
        by_cases h2 : (4 : ℚ) / 5 ≤
            ((categoryScan c.patterns pairs).2 : ℚ) /
              ((categoryScan c.patterns pairs).1 : ℚ)
        · have hmas : masteredOf pairs c = some c.pname := by
            rw [masteredOf, if_pos ⟨h1, h2⟩]
          have hstr : strugglingOf pairs c = none := by
            rw [strugglingOf, if_neg]
            rintro ⟨-, h3⟩
            have h4 : ((categoryScan c.patterns pairs).2 : ℚ) /
                ((categoryScan c.patterns pairs).1 : ℚ) < 4 / 5 := by
              linarith
            linarith
          rw [phonicsStep]
          simp only [if_pos h1, List.filterMap_cons, hstat, hmas, hstr]
          simp [if_pos h2]
        · have hmas : masteredOf pairs c = none := by
            rw [masteredOf, if_neg]
            rintro ⟨-, h3⟩
            exact h2 h3
          rw [phonicsStep]
          simp only [if_pos h1, List.filterMap_cons, hstat, hmas]
          by_cases h3 : ((categoryScan c.patterns pairs).2 : ℚ) /
              ((categoryScan c.patterns pairs).1 : ℚ) < 1 / 2
          · have hstr : strugglingOf pairs c = some c.pname := by
              rw [strugglingOf, if_pos ⟨h1, h3⟩]
            rw [hstr]
            simp only [if_neg h2, if_pos h3]
            simp
          · have hstr : strugglingOf pairs c = none := by
              rw [strugglingOf, if_neg]
              rintro ⟨-, h4⟩
              exact h3 h4
            rw [hstr]
            simp only [if_neg h2, if_neg h3]
            simp
      · have hstat : statOf pairs c = none := by rw [statOf, if_neg h1]
        have hmas : masteredOf pairs c = none := by
          rw [masteredOf, if_neg]
          rintro ⟨h2, -⟩
          exact h1 h2
        have hstr : strugglingOf pairs c = none := by
          rw [strugglingOf, if_neg]
          rintro ⟨h2, -⟩
          exact h1 h2
        rw [phonicsStep]
        simp [if_neg h1, List.filterMap_cons, hstat, hmas, hstr]

/-- The inner fold over one pair adds, to `attempted`, the number of
    catalog patterns occurring in the expected word — one increment per
    matching pattern — and the same amount to `correct` exactly when
    the words agree. -/
theorem categoryScan_inner (p : String × String) (pats : List String)
    (acc : ℕ × ℕ) :
    pats.foldl (fun acc2 pat =>
      if subStrIn pat p.1 then
        (acc2.1 + 1, if p.1 = p.2 then acc2.2 + 1 else acc2.2)
      else acc2) acc =
      (acc.1 + (pats.filter (fun q => subStrIn q p.1)).length,
       acc.2 + (if p.1 = p.2 then
         (pats.filter (fun q => subStrIn q p.1)).length else 0)) := by
  induction pats generalizing acc with
  | nil => simp
  | cons pat pats ih =>
      rw [List.foldl_cons, List.filter_cons]
      by_cases hm : subStrIn pat p.1 = true
      · rw [if_pos hm, ih, if_pos hm]
        by_cases he : p.1 = p.2
        · simp [he, List.length_cons]
          omega
        · simp [he, List.length_cons]
          omega
      · rw [if_neg hm, ih, if_neg hm]

/-- Totals of `categoryScan`, per category: `attempts` is the sum over
    zipped word pairs of the number of matching patterns, `correct`
    the same sum restricted to exactly-read words. -/
theorem categoryScan_sums (pats : List String)
    (pairs : List (String × String)) :
    (categoryScan pats pairs).1 =
      (pairs.map (fun p =>
        (pats.filter (fun q => subStrIn q p.1)).length)).sum ∧
    (categoryScan pats pairs).2 =
      (pairs.map (fun p => if p.1 = p.2 then
        (pats.filter (fun q => subStrIn q p.1)).length else 0)).sum := by
  suffices h : ∀ acc : ℕ × ℕ,
      pairs.foldl (fun acc p =>
        pats.foldl (fun acc2 pat =>
          if subStrIn pat p.1 then
            (acc2.1 + 1, if p.1 = p.2 then acc2.2 + 1 else acc2.2)
          else acc2) acc) acc =
      (acc.1 + (pairs.map (fun p =>
        (pats.filter (fun q => subStrIn q p.1)).length)).sum,
       acc.2 + (pairs.map (fun p => if p.1 = p.2 then
        (pats.filter (fun q => subStrIn q p.1)).length else 0)).sum) by
    constructor
    · rw [categoryScan, h (0, 0)]
      simp
    · rw [categoryScan, h (0, 0)]
      simp
  induction pairs with
  | nil => intro acc; simp
  | cons p pairs ih =>
      intro acc
      rw [List.foldl_cons, categoryScan_inner, ih]
      simp only [List.map_cons, List.sum_cons, Prod.mk.injEq]
      constructor <;> omega

/-! ### Claim C8 -/

/-- C8 (counterexample). `attempts` is bumped once per matching
    pattern substring, not once per matching reference word: the single
    word "area" read correctly matches two `short_vowels` patterns
    (`a` and `e`), so `short_vowels` records `attempts = 2` although
    only one reference word matches the category. -/
theorem phonics_attempts_per_pattern :
    ((analyze_phonics_patterns ("area") ("area")).patterns_attempted.map
      (fun s => (s.pattern, s.attempts, s.correct))) =
      [("short_vowels", 2, 2), ("vowel_teams", 1, 1),
       ("r_controlled", 1, 1)] ∧
    ((lowerWords ("area")).filter
      (fun w => (["a", "e", "i", "o", "u"] : List String).any
        (fun q => subStrIn q w))).length = 1 := by
  constructor <;> decide

/-- C8 (amended). For every session, the pattern-stats update
    increments `attempts` once per (reference word, matching pattern)
    pair — a word containing several patterns of one category counts
    several times — and increments `correct` by the same amount exactly
    when the zipped transcribed word equals the reference word; among
    categories with at least one attempt, a category is reported
    mastered iff `success_rate ≥ 0.8` and struggling iff
    `success_rate < 0.5`. -/
theorem phonics_stats_characterization (transcribed expected : String) :
    (analyze_phonics_patterns transcribed expected).patterns_attempted =
      phonics_patterns.filterMap
        (statOf ((lowerWords expected).zip (lowerWords transcribed))) ∧
    (analyze_phonics_patterns transcribed expected).patterns_mastered =
      phonics_patterns.filterMap
        (masteredOf ((lowerWords expected).zip (lowerWords transcribed))) ∧
    (analyze_phonics_patterns transcribed expected).patterns_struggling =
      phonics_patterns.filterMap
        (strugglingOf ((lowerWords expected).zip (lowerWords transcribed))) ∧
    ∀ pats pairs,
      (categoryScan pats pairs).1 =
        (pairs.map (fun p =>
          (pats.filter (fun q => subStrIn q p.1)).length)).sum ∧
      (categoryScan pats pairs).2 =
        (pairs.map (fun p => if p.1 = p.2 then
          (pats.filter (fun q => subStrIn q p.1)).length else 0)).sum := by
  have hfold := phonicsStep_fold_spec
    ((lowerWords expected).zip (lowerWords transcribed))
    phonics_patterns ⟨[], [], []⟩
  have hdef : analyze_phonics_patterns transcribed expected =
      phonics_patterns.foldl
        (phonicsStep ((lowerWords expected).zip (lowerWords transcribed)))
        ⟨[], [], []⟩ := rfl
  rw [hdef, hfold]
  refine ⟨by simp, by simp, by simp, fun pats pairs => categoryScan_sums pats pairs⟩

/-! ### Claim C10 -/

theorem opcodesAux_tags :
    ∀ (blocks : List (ℕ × ℕ × ℕ)) (i j : ℕ), ∀ op ∈ opcodesAux i j blocks,
      op.tag = "replace" ∨ op.tag = "delete" ∨ op.tag = "insert" ∨
        op.tag = "equal" := by
  intro blocks
  induction blocks with
  | nil =>
      intro i j op h
      simp [opcodesAux] at h
  | cons m rest ih =>
      intro i j op h
      simp only [opcodesAux] at h
      rcases List.mem_append.mp h with h1 | h2
      · rcases List.mem_append.mp h1 with hg | he
        · split_ifs at hg with c1 c2 c3
          · rw [List.mem_singleton.mp hg]
            left; rfl
          · rw [List.mem_singleton.mp hg]
            right; left; rfl
          · rw [List.mem_singleton.mp hg]
            right; right; left; rfl
          · simp at hg
        · split_ifs at he with c1
          · rw [List.mem_singleton.mp he]
            right; right; right; rfl
          · simp at he
      · exact ih _ _ op h2

theorem mistakeOfOpcode_none_iff (ews tws : List String) (op : Opcode)
    (htag : op.tag = "replace" ∨ op.tag = "delete" ∨ op.tag = "insert" ∨
      op.tag = "equal") :
    mistakeOfOpcode ews tws op = none ↔ op.tag = "equal" := by
  rcases htag with h | h | h | h <;> simp [mistakeOfOpcode, h]

theorem length_filterMap_mistakes (ews tws : List String)
    (ops : List Opcode)
    (htags : ∀ op ∈ ops, op.tag = "replace" ∨ op.tag = "delete" ∨
      op.tag = "insert" ∨ op.tag = "equal") :
    (ops.filterMap (mistakeOfOpcode ews tws)).length =
      ops.countP (fun op => !(op.tag == "equal")) := by
  induction ops with
  | nil => simp
  | cons op ops ih =>
      have hop := htags op (List.mem_cons_self _ _)
      have ih2 := ih (fun x hx => htags x (List.mem_cons_of_mem _ hx))
      rw [List.filterMap_cons, List.countP_cons]
      by_cases he : op.tag = "equal"
      · have hnone : mistakeOfOpcode ews tws op = none :=
          (mistakeOfOpcode_none_iff ews tws op hop).mpr he
        rw [hnone, ih2]
        simp [he]
      · have hsome : mistakeOfOpcode ews tws op ≠ none := by
          intro hn
          exact he ((mistakeOfOpcode_none_iff ews tws op hop).mp hn)
        rcases Option.ne_none_iff_exists.mp hsome with ⟨m, hm⟩
        rw [← hm, List.length_cons, ih2]
        simp [he]

/-- C10 (confirmed). For every reference/transcript pair the
    `corrections` output is truncated to at most 5 entries
    (`corrections[:5]`), while `mistakes` is returned untruncated with
    exactly one entry per non-`equal` opcode group; concretely, a
    session with 6 substitution groups reports 6 mistakes but only 5
    corrections. -/
theorem corrections_capped (t e : String) :
    (analyze_reading_accuracy t e).corrections.length =
      min (analyze_reading_accuracy t e).mistakes.length 5 ∧
    (analyze_reading_accuracy t e).mistakes.length =
      (get_opcodes (normWords e) (normWords t) (fun _ => false)).countP
        (fun op => !(op.tag == "equal")) ∧
    (analyze_reading_accuracy
      ("sun cap moon cup star dig tree fash lake burd hill frig")
      ("sun bat moon cat star dog tree fish lake bird hill frog")).mistakes.length
      = 6 ∧
    (analyze_reading_accuracy
      ("sun cap moon cup star dig tree fash lake burd hill frig")
      ("sun bat moon cat star dog tree fish lake bird hill frog")).corrections.length
      = 5 := by
  refine ⟨?_, ?_, by decide, by decide⟩
  · rw [analyze_reading_accuracy_def, alignWords_corrections,
      List.length_take, List.length_map]
    exact Nat.min_comm _ _
  · rw [analyze_reading_accuracy_def, alignWords_mistakes]
    exact length_filterMap_mistakes _ _ _
      (opcodesAux_tags _ 0 0)

theorem diagRun_eq_of_ok (a : List String) (alo ahi j : ℕ)
    (hok : diagOK a alo ahi j) :
    diagRun a alo ahi j =
      if j = alo then 1 else diagRun a alo ahi (j - 1) + 1 := by
  cases j with
  | zero =>
      have h0 : alo = 0 := Nat.le_zero.mp hok.1
      rw [diagRun, if_pos hok]
      rw [if_pos h0.symm]
  | succ j =>
      rw [diagRun, if_pos hok]
      rfl

theorem diagRun_zero_of_not_ok (a : List String) (alo ahi j : ℕ)
    (hok : ¬ diagOK a alo ahi j) : diagRun a alo ahi j = 0 := by
  cases j with
  | zero => rw [diagRun, if_neg hok]
  | succ j => rw [diagRun, if_neg hok]

theorem diagRun_pos_of_ok (a : List String) (alo ahi j : ℕ)
    (hok : diagOK a alo ahi j) : 1 ≤ diagRun a alo ahi j := by
  rw [diagRun_eq_of_ok a alo ahi j hok]
  split <;> omega

theorem diagRun_le (a : List String) (alo ahi : ℕ) :
    ∀ j, diagRun a alo ahi j ≤ j + 1 - alo := by
  intro j
  induction j with
  | zero =>
      by_cases h : diagOK a alo ahi 0
      · have h0 : alo = 0 := Nat.le_zero.mp h.1
        rw [diagRun, if_pos h]
        omega
      · rw [diagRun, if_neg h]
        omega
  | succ j ih =>
      by_cases h : diagOK a alo ahi (j + 1)
      · rw [diagRun, if_pos h]
        have halo : alo ≤ j + 1 := h.1
        by_cases he : j + 1 = alo
        · rw [if_pos he]
          omega
        · rw [if_neg he]
          omega
      · rw [diagRun, if_neg h]
        omega

theorem mem_b2j (b : List String) (x : String) (j : ℕ) :
    j ∈ b2j b x ↔
      autoPopular b x = false ∧ j < b.length ∧ b.getD j ("") = x := by
  unfold b2j positionsOf
  by_cases hp : autoPopular b x = true
  · simp [hp]
  · rw [Bool.not_eq_true] at hp
    simp [hp, List.mem_filter, List.mem_range]

theorem b2j_sorted (b : List String) (x : String) :
    (b2j b x).Pairwise (· < ·) := by
  unfold b2j
  by_cases hp : autoPopular b x = true
  · simp [hp]
  · rw [if_neg hp]
    exact List.Pairwise.sublist (List.filter_sublist _)
      (List.pairwise_lt_range _)

theorem mem_rowCandidates_self (a : List String) (alo ahi i j : ℕ) :
    j ∈ rowCandidates alo ahi (b2j a (a.getD i (""))) ↔
      (autoPopular a (a.getD i ("")) = false ∧ j < a.length ∧
        a.getD j ("") = a.getD i ("")) ∧ alo ≤ j ∧ j < ahi := by
  unfold rowCandidates
  rw [List.mem_filter, mem_b2j]
  simp

theorem rowCandidates_sorted (a : List String) (alo ahi i : ℕ) :
    (rowCandidates alo ahi (b2j a (a.getD i ("")))).Pairwise (· < ·) :=
  List.Pairwise.sublist (List.filter_sublist _) (b2j_sorted a _)

/-- Any sorted list splits at a member into a strictly-smaller prefix
    and a strictly-larger suffix. -/
theorem sorted_mem_split {l : List ℕ} {i : ℕ}
    (hs : l.Pairwise (· < ·)) (hm : i ∈ l) :
    ∃ A B, l = A ++ i :: B ∧ (∀ x ∈ A, x < i) ∧ ∀ x ∈ B, i < x := by
  induction l with
  | nil => simp at hm
  | cons y l ih =>
      rcases List.mem_cons.mp hm with h | h
      · subst h
        exact ⟨[], l, rfl, by simp,
          fun x hx => (List.pairwise_cons.mp hs).1 x hx⟩
      · obtain ⟨A, B, hl, hA, hB⟩ := ih (List.pairwise_cons.mp hs).2 h
        have hy : y < i := (List.pairwise_cons.mp hs).1 i h
        refine ⟨y :: A, B, by rw [hl]; rfl, ?_, hB⟩
        intro x hx
        rcases List.mem_cons.mp hx with h2 | h2
        · subst h2; exact hy
        · exact hA x h2

/-- A fold of `flmBestStep` over candidates that never beat the current
    best leaves the best unchanged. -/
theorem foldl_flmBestStep_no_update (f : ℕ → ℕ) (i : ℕ) :
    ∀ (L : List ℕ) (bst : ℕ × ℕ × ℕ),
      (∀ j ∈ L, flmCand f j ≤ bst.2.2) →
      List.foldl (flmBestStep f i) bst L = bst := by
  intro L
  induction L with
  | nil => intro bst _; rfl
  | cons j L ih =>
      intro bst h
      have hj := h j (List.mem_cons_self _ _)
      rw [List.foldl_cons, flmBestStep, if_neg (by omega)]
      exact ih bst (fun x hx => h x (List.mem_cons_of_mem _ hx))

theorem flmRow_j2len_apply (blo bhi : ℕ) (js : List ℕ) (st : FlmState)
    (i j : ℕ) :
    (flmRow blo bhi js st i).j2len j =
      if j ∈ rowCandidates blo bhi js then flmCand st.j2len j else 0 := rfl

theorem flmRow_besti (blo bhi : ℕ) (js : List ℕ) (st : FlmState) (i : ℕ) :
    (flmRow blo bhi js st i).besti =
      (List.foldl (flmBestStep st.j2len i)
        (st.besti, st.bestj, st.bestsize) (rowCandidates blo bhi js)).1 := rfl

theorem flmRow_bestj (blo bhi : ℕ) (js : List ℕ) (st : FlmState) (i : ℕ) :
    (flmRow blo bhi js st i).bestj =
      (List.foldl (flmBestStep st.j2len i)
        (st.besti, st.bestj, st.bestsize)
        (rowCandidates blo bhi js)).2.1 := rfl

theorem flmRow_bestsize (blo bhi : ℕ) (js : List ℕ) (st : FlmState)
    (i : ℕ) :
    (flmRow blo bhi js st i).bestsize =
      (List.foldl (flmBestStep st.j2len i)
        (st.besti, st.bestj, st.bestsize)
        (rowCandidates blo bhi js)).2.2 := rfl

theorem flmBestStep_cases (f : ℕ → ℕ) (i : ℕ) (bst : ℕ × ℕ × ℕ) (j : ℕ) :
    (bst.2.2 < flmCand f j ∧
      flmBestStep f i bst j =
        (i + 1 - flmCand f j, j + 1 - flmCand f j, flmCand f j)) ∨
    (flmCand f j ≤ bst.2.2 ∧ flmBestStep f i bst j = bst) := by
  unfold flmBestStep
  by_cases h : bst.2.2 < flmCand f j
  · left
    exact ⟨h, if_pos h⟩
  · right
    exact ⟨by omega, if_neg h⟩

theorem invDP_step (a : List String) (alo ahi i : ℕ)
    (hi1 : alo ≤ i) (hi2 : i < ahi) (hlen : ahi ≤ a.length)
    (st : FlmState) (hinv : InvDP a alo ahi i st) :
    InvDP a alo ahi (i + 1) (flmRow alo ahi (b2j a (a.getD i (""))) st i) := by
  have hpd1 : ∀ j, flmCand st.j2len j ≤
      (if i = alo then 0 else diagRun a alo ahi (i - 1)) + 1 := by
    intro j
    unfold flmCand prevLen
    by_cases hj : j = 0
    · rw [if_pos hj]
      omega
    · rw [if_neg hj]
      have := hinv.h_le_pd (j - 1)
      omega
  by_cases hpop : autoPopular a (a.getD i ("")) = true
  · -- popular element: no candidates, the row resets `j2len` to zero
    have hrc : rowCandidates alo ahi (b2j a (a.getD i (""))) = [] := by
      unfold rowCandidates b2j
      rw [if_pos hpop]
      rfl
    have hok : ¬ diagOK a alo ahi i := by
      intro h
      rw [h.2.2.2] at hpop
      exact Bool.false_ne_true hpop
    have hdr : diagRun a alo ahi i = 0 :=
      diagRun_zero_of_not_ok a alo ahi i hok
    have hne : i + 1 ≠ alo := by omega
    have hfold : List.foldl (flmBestStep st.j2len i)
        (st.besti, st.bestj, st.bestsize)
        (rowCandidates alo ahi (b2j a (a.getD i ("")))) =
        (st.besti, st.bestj, st.bestsize) := by
      rw [hrc]
      rfl
    constructor
    · intro j
      rw [flmRow_j2len_apply, hrc]
      simp
    · intro j
      rw [flmRow_j2len_apply, hrc]
      simp
    · rw [flmRow_j2len_apply, hrc, if_neg hne]
      have h1 : i + 1 - 1 = i := by omega
      rw [h1, hdr]
      simp
    · rw [flmRow_besti, flmRow_bestj, hfold]
      exact hinv.h_diag
    · rw [flmRow_besti, hfold]
      exact hinv.h_lo
    · rw [flmRow_besti, flmRow_bestsize, hfold]
      dsimp only
      have := hinv.h_hi
      omega
    · rw [flmRow_besti, flmRow_bestsize, hfold]
      exact hinv.h_zero
    · intro i2 h1 h2
      rw [flmRow_bestsize, hfold]
      rcases Nat.lt_or_ge i2 i with h3 | h3
      · exact hinv.h_best i2 h1 h3
      · have h4 : i2 = i := by omega
        rw [h4, hdr]
        omega
  · -- non-popular element: the diagonal candidate `(i, i)` is visited
    rw [Bool.not_eq_true] at hpop
    have hlen_i : i < a.length := lt_of_lt_of_le hi2 hlen
    have hoki : diagOK a alo ahi i := ⟨hi1, hi2, hlen_i, hpop⟩
    have hdr_i : diagRun a alo ahi i =
        (if i = alo then 0 else diagRun a alo ahi (i - 1)) + 1 := by
      rw [diagRun_eq_of_ok a alo ahi i hoki]
      by_cases he : i = alo
      · rw [if_pos he, if_pos he]
      · rw [if_neg he, if_neg he]
    have hdr_i_pos : 1 ≤ diagRun a alo ahi i :=
      diagRun_pos_of_ok a alo ahi i hoki
    have hkci : flmCand st.j2len i = diagRun a alo ahi i := by
      unfold flmCand prevLen
      by_cases hi0 : i = 0
      · subst hi0
        have halo : alo = 0 := Nat.le_zero.mp hi1
        subst halo
        rw [if_pos rfl, hdr_i, if_pos rfl]
      · rw [if_neg hi0, hinv.h_exact, hdr_i]
    have hiMem : i ∈ rowCandidates alo ahi (b2j a (a.getD i (""))) :=
      (mem_rowCandidates_self a alo ahi i i).mpr
        ⟨⟨hpop, hlen_i, rfl⟩, hi1, hi2⟩
    have hmemOK : ∀ j ∈ rowCandidates alo ahi (b2j a (a.getD i (""))),
        diagOK a alo ahi j := by
      intro j hj
      obtain ⟨⟨hp, hjlen, hjval⟩, hj1, hj2⟩ :=
        (mem_rowCandidates_self a alo ahi i j).mp hj
      refine ⟨hj1, hj2, hjlen, ?_⟩
      rw [hjval]
      exact hpop
    have hmemLo : ∀ j ∈ rowCandidates alo ahi (b2j a (a.getD i (""))),
        alo ≤ j := fun j hj => (hmemOK j hj).1
    have hkc_diag : ∀ j ∈ rowCandidates alo ahi (b2j a (a.getD i (""))),
        flmCand st.j2len j ≤ diagRun a alo ahi j := by
      intro j hj
      have hok := hmemOK j hj
      unfold flmCand prevLen
      by_cases hj0 : j = 0
      · subst hj0
        rw [if_pos rfl]
        have := diagRun_pos_of_ok a alo ahi 0 hok
        omega
      · rw [if_neg hj0, diagRun_eq_of_ok a alo ahi j hok]
        by_cases hjalo : j = alo
        · rw [if_pos hjalo]
          have hnot : ¬ diagOK a alo ahi (j - 1) := by
            intro hd
            have := hd.1
            omega
          have h0 : diagRun a alo ahi (j - 1) = 0 :=
            diagRun_zero_of_not_ok a alo ahi _ hnot
          have := hinv.h_le_diag (j - 1)
          omega
        · rw [if_neg hjalo]
          have := hinv.h_le_diag (j - 1)
          omega
    have hkc_i : ∀ j, flmCand st.j2len j ≤ diagRun a alo ahi i := by
      intro j
      have := hpd1 j
      omega
    obtain ⟨A, B, hsplit, hA, hB⟩ :=
      sorted_mem_split (rowCandidates_sorted a alo ahi i) hiMem
    have hfoldA : List.foldl (flmBestStep st.j2len i)
        (st.besti, st.bestj, st.bestsize) A =
        (st.besti, st.bestj, st.bestsize) := by
      apply foldl_flmBestStep_no_update
      intro j hjA
      have hjrc : j ∈ rowCandidates alo ahi (b2j a (a.getD i (""))) := by
        rw [hsplit]
        exact List.mem_append_left _ hjA
      have hji : j < i := hA j hjA
      have h1 := hkc_diag j hjrc
      have h2 := hinv.h_best j (hmemLo j hjrc) hji
      show flmCand st.j2len j ≤ st.bestsize
      omega
    rcases flmBestStep_cases st.j2len i (st.besti, st.bestj, st.bestsize) i
      with ⟨hup, hb1⟩ | ⟨hup, hb1⟩ <;>
    [ (have hfacts : (flmBestStep st.j2len i
          (st.besti, st.bestj, st.bestsize) i).1 =
            (flmBestStep st.j2len i (st.besti, st.bestj, st.bestsize) i).2.1 ∧
          alo ≤ (flmBestStep st.j2len i
            (st.besti, st.bestj, st.bestsize) i).1 ∧
          (flmBestStep st.j2len i (st.besti, st.bestj, st.bestsize) i).1 +
            (flmBestStep st.j2len i
              (st.besti, st.bestj, st.bestsize) i).2.2 ≤ i + 1 ∧
          diagRun a alo ahi i ≤ (flmBestStep st.j2len i
            (st.besti, st.bestj, st.bestsize) i).2.2 ∧
          st.bestsize ≤ (flmBestStep st.j2len i
            (st.besti, st.bestj, st.bestsize) i).2.2 ∧
          ((flmBestStep st.j2len i
            (st.besti, st.bestj, st.bestsize) i).2.2 = 0 →
            (flmBestStep st.j2len i
              (st.besti, st.bestj, st.bestsize) i).1 = alo) := by
        rw [hb1, hkci]
        dsimp only
        have hle := diagRun_le a alo ahi i
        have h1 : st.bestsize < diagRun a alo ahi i := by
          rw [hkci] at hup
          exact hup
        refine ⟨rfl, by omega, by omega, by omega, by omega, by omega⟩);
      (have hfacts : (flmBestStep st.j2len i
          (st.besti, st.bestj, st.bestsize) i).1 =
            (flmBestStep st.j2len i (st.besti, st.bestj, st.bestsize) i).2.1 ∧
          alo ≤ (flmBestStep st.j2len i
            (st.besti, st.bestj, st.bestsize) i).1 ∧
          (flmBestStep st.j2len i (st.besti, st.bestj, st.bestsize) i).1 +
            (flmBestStep st.j2len i
              (st.besti, st.bestj, st.bestsize) i).2.2 ≤ i + 1 ∧
          diagRun a alo ahi i ≤ (flmBestStep st.j2len i
            (st.besti, st.bestj, st.bestsize) i).2.2 ∧
          st.bestsize ≤ (flmBestStep st.j2len i
            (st.besti, st.bestj, st.bestsize) i).2.2 ∧
          ((flmBestStep st.j2len i
            (st.besti, st.bestj, st.bestsize) i).2.2 = 0 →
            (flmBestStep st.j2len i
              (st.besti, st.bestj, st.bestsize) i).1 = alo) := by
        rw [hb1]
        dsimp only
        have h1 : flmCand st.j2len i ≤ st.bestsize := hup
        rw [hkci] at h1
        have h2 := hinv.h_hi
        exact ⟨hinv.h_diag, hinv.h_lo, by omega, by omega, le_refl _,
          hinv.h_zero⟩) ] <;>
    · have hfoldB : List.foldl (flmBestStep st.j2len i)
          (flmBestStep st.j2len i (st.besti, st.bestj, st.bestsize) i) B =
          flmBestStep st.j2len i (st.besti, st.bestj, st.bestsize) i := by
        apply foldl_flmBestStep_no_update
        intro j hjB
        have h1 := hkc_i j
        have h2 := hfacts.2.2.2.1
        omega
      have hfold : List.foldl (flmBestStep st.j2len i)
          (st.besti, st.bestj, st.bestsize)
          (rowCandidates alo ahi (b2j a (a.getD i ("")))) =
          flmBestStep st.j2len i (st.besti, st.bestj, st.bestsize) i := by
        rw [hsplit, List.foldl_append, hfoldA, List.foldl_cons, hfoldB]
      have hne : i + 1 ≠ alo := by omega
      have hsub : i + 1 - 1 = i := by omega
      constructor
      · intro j
        rw [flmRow_j2len_apply]
        by_cases hj : j ∈ rowCandidates alo ahi (b2j a (a.getD i ("")))
        · rw [if_pos hj]
          exact hkc_diag j hj
        · rw [if_neg hj]
          exact Nat.zero_le _
      · intro j
        rw [flmRow_j2len_apply, if_neg hne, hsub]
        by_cases hj : j ∈ rowCandidates alo ahi (b2j a (a.getD i ("")))
        · rw [if_pos hj]
          exact hkc_i j
        · rw [if_neg hj]
          exact Nat.zero_le _
      · rw [flmRow_j2len_apply, if_neg hne, hsub, if_pos hiMem, hkci]
      · rw [flmRow_besti, flmRow_bestj, hfold]
        exact hfacts.1
      · rw [flmRow_besti, hfold]
        exact hfacts.2.1
      · rw [flmRow_besti, flmRow_bestsize, hfold]
        exact hfacts.2.2.1
      · rw [flmRow_besti, flmRow_bestsize, hfold]
        exact hfacts.2.2.2.2.2
      · intro i2 h1 h2
        rw [flmRow_bestsize, hfold]
        rcases Nat.lt_or_ge i2 i with h3 | h3
        · have h4 := hinv.h_best i2 h1 h3
          have h5 := hfacts.2.2.2.2.1
          omega
        · have h4 : i2 = i := by omega
          rw [h4]
          exact hfacts.2.2.2.1

theorem invDP_loop_aux (a : List String) (alo ahi : ℕ)
    (hlen : ahi ≤ a.length) :
    ∀ (n i : ℕ) (st : FlmState), alo ≤ i → i + n = ahi →
      InvDP a alo ahi i st →
      InvDP a alo ahi ahi ((List.range' i n).foldl
        (fun st i => flmRow alo ahi (b2j a (a.getD i (""))) st i) st) := by
  intro n
  induction n with
  | zero =>
      intro i st h1 h2 h3
      have h4 : i = ahi := by omega
      subst h4
      simpa using h3
  | succ n ih =>
      intro i st h1 h2 h3
      rw [List.range'_succ, List.foldl_cons]
      exact ih (i + 1) _ (by omega) (by omega)
        (invDP_step a alo ahi i h1 (by omega) hlen st h3)

theorem invDP_loop (a : List String) (alo ahi : ℕ)
    (hle : alo ≤ ahi) (hlen : ahi ≤ a.length) :
    InvDP a alo ahi ahi (flmLoop a a alo ahi alo ahi) := by
  have hinit : InvDP a alo ahi alo ⟨fun _ => 0, alo, alo, 0⟩ := by
    constructor
    · intro j
      exact Nat.zero_le _
    · intro j
      exact Nat.zero_le _
    · rw [if_pos rfl]
    · rfl
    · exact le_refl _
    · show alo + 0 ≤ alo
      omega
    · intro _
      rfl
    · intro i2 h1 h2
      omega
  exact invDP_loop_aux a alo ahi hlen (ahi - alo) alo _ (le_refl _)
    (by omega) hinit

/-- A backward extension on the self-diagonal stays diagonal: it moves
    `besti = bestj` down and grows the size by the same amount. -/
theorem extendBack_self (a : List String) (junkB : String → Bool)
    (wantJunk : Bool) (alo : ℕ) :
    ∀ (fuel bi s : ℕ), alo ≤ bi →
      ∃ x s2, extendBack a a junkB wantJunk alo alo fuel bi bi s =
        (x, x, s2) ∧ alo ≤ x ∧ x + s2 = bi + s ∧ s ≤ s2 := by
  intro fuel
  induction fuel with
  | zero =>
      intro bi s h
      exact ⟨bi, s, rfl, h, rfl, le_refl _⟩
  | succ fuel ih =>
      intro bi s h
      rw [extendBack]
      by_cases hc : alo < bi ∧ alo < bi ∧
          junkB (a.getD (bi - 1) "") = wantJunk ∧
          a.getD (bi - 1) "" = a.getD (bi - 1) ""
      · rw [if_pos hc]
        obtain ⟨x, s2, heq, hx, hsum, hs⟩ := ih (bi - 1) (s + 1)
          (by omega)
        refine ⟨x, s2, heq, hx, by omega, by omega⟩
      · rw [if_neg hc]
        exact ⟨bi, s, rfl, h, rfl, le_refl _⟩

/-- A forward extension on the self-diagonal only grows the size, and
    keeps `besti + bestsize` within `ahi`. -/
theorem extendFwd_mono (a : List String) (junkB : String → Bool)
    (wantJunk : Bool) (ahi : ℕ) :
    ∀ (fuel bi s : ℕ),
      s ≤ extendFwd a a junkB wantJunk ahi ahi bi bi fuel s ∧
      (bi + s ≤ ahi →
        bi + extendFwd a a junkB wantJunk ahi ahi bi bi fuel s ≤ ahi) := by
  intro fuel
  induction fuel with
  | zero =>
      intro bi s
      exact ⟨le_refl _, fun h => h⟩
  | succ fuel ih =>
      intro bi s
      rw [extendFwd]
      by_cases hc : bi + s < ahi ∧ bi + s < ahi ∧
          junkB (a.getD (bi + s) "") = wantJunk ∧
          a.getD (bi + s) "" = a.getD (bi + s) ""
      · rw [if_pos hc]
        obtain ⟨h1, h2⟩ := ih bi (s + 1)
        exact ⟨by omega, fun _ => h2 (by omega)⟩
      · rw [if_neg hc]
        exact ⟨le_refl _, fun h => h⟩

/-- With positive fuel, the forward extension takes at least one step
    when the junk flag of the first element matches. -/
theorem extendFwd_pos (a : List String) (junkB : String → Bool)
    (wantJunk : Bool) (ahi fuel bi : ℕ)
    (hfuel : 1 ≤ fuel) (hbi : bi < ahi)
    (hjunk : junkB (a.getD bi ("")) = wantJunk) :
    1 ≤ extendFwd a a junkB wantJunk ahi ahi bi bi fuel 0 := by
  obtain ⟨f, rfl⟩ : ∃ f, fuel = f + 1 := ⟨fuel - 1, by omega⟩
  rw [extendFwd, if_pos ⟨by omega, by omega, hjunk, rfl⟩]
  exact (extendFwd_mono a junkB wantJunk ahi f bi 1).1

theorem find_longest_match_eq (a b : List String) (junkB : String → Bool)
    (alo ahi blo bhi : ℕ) :
    find_longest_match a b junkB alo ahi blo bhi =
      ((extendBack a b junkB true alo blo
          (extendBack a b junkB false alo blo
            (flmLoop a b alo ahi blo bhi).besti
            (flmLoop a b alo ahi blo bhi).besti
            (flmLoop a b alo ahi blo bhi).bestj
            (flmLoop a b alo ahi blo bhi).bestsize).1
          (extendBack a b junkB false alo blo
            (flmLoop a b alo ahi blo bhi).besti
            (flmLoop a b alo ahi blo bhi).besti
            (flmLoop a b alo ahi blo bhi).bestj
            (flmLoop a b alo ahi blo bhi).bestsize).1
          (extendBack a b junkB false alo blo
            (flmLoop a b alo ahi blo bhi).besti
            (flmLoop a b alo ahi blo bhi).besti
            (flmLoop a b alo ahi blo bhi).bestj
            (flmLoop a b alo ahi blo bhi).bestsize).2.1
          (extendFwd a b junkB false ahi bhi
            (extendBack a b junkB false alo blo
              (flmLoop a b alo ahi blo bhi).besti
              (flmLoop a b alo ahi blo bhi).besti
              (flmLoop a b alo ahi blo bhi).bestj
              (flmLoop a b alo ahi blo bhi).bestsize).1
            (extendBack a b junkB false alo blo
              (flmLoop a b alo ahi blo bhi).besti
              (flmLoop a b alo ahi blo bhi).besti
              (flmLoop a b alo ahi blo bhi).bestj
              (flmLoop a b alo ahi blo bhi).bestsize).2.1
            ahi
            (extendBack a b junkB false alo blo
              (flmLoop a b alo ahi blo bhi).besti
              (flmLoop a b alo ahi blo bhi).besti
              (flmLoop a b alo ahi blo bhi).bestj
              (flmLoop a b alo ahi blo bhi).bestsize).2.2)).1,
       (extendBack a b junkB true alo blo
          (extendBack a b junkB false alo blo
            (flmLoop a b alo ahi blo bhi).besti
            (flmLoop a b alo ahi blo bhi).besti
            (flmLoop a b alo ahi blo bhi).bestj
            (flmLoop a b alo ahi blo bhi).bestsize).1
          (extendBack a b junkB false alo blo
            (flmLoop a b alo ahi blo bhi).besti
            (flmLoop a b alo ahi blo bhi).besti
            (flmLoop a b alo ahi blo bhi).bestj
            (flmLoop a b alo ahi blo bhi).bestsize).1
          (extendBack a b junkB false alo blo
            (flmLoop a b alo ahi blo bhi).besti
            (flmLoop a b alo ahi blo bhi).besti
            (flmLoop a b alo ahi blo bhi).bestj
            (flmLoop a b alo ahi blo bhi).bestsize).2.1
          (extendFwd a b junkB false ahi bhi
            (extendBack a b junkB false alo blo
              (flmLoop a b alo ahi blo bhi).besti
              (flmLoop a b alo ahi blo bhi).besti
              (flmLoop a b alo ahi blo bhi).bestj
              (flmLoop a b alo ahi blo bhi).bestsize).1
            (extendBack a b junkB false alo blo
              (flmLoop a b alo ahi blo bhi).besti
              (flmLoop a b alo ahi blo bhi).besti
              (flmLoop a b alo ahi blo bhi).bestj
              (flmLoop a b alo ahi blo bhi).bestsize).2.1
            ahi
            (extendBack a b junkB false alo blo
              (flmLoop a b alo ahi blo bhi).besti
              (flmLoop a b alo ahi blo bhi).besti
              (flmLoop a b alo ahi blo bhi).bestj
              (flmLoop a b alo ahi blo bhi).bestsize).2.2)).2.1,
       extendFwd a b junkB true ahi bhi
         (extendBack a b junkB true alo blo
            (extendBack a b junkB false alo blo
              (flmLoop a b alo ahi blo bhi).besti
              (flmLoop a b alo ahi blo bhi).besti
              (flmLoop a b alo ahi blo bhi).bestj
              (flmLoop a b alo ahi blo bhi).bestsize).1
            (extendBack a b junkB false alo blo
              (flmLoop a b alo ahi blo bhi).besti
              (flmLoop a b alo ahi blo bhi).besti
              (flmLoop a b alo ahi blo bhi).bestj
              (flmLoop a b alo ahi blo bhi).bestsize).1
            (extendBack a b junkB false alo blo
              (flmLoop a b alo ahi blo bhi).besti
              (flmLoop a b alo ahi blo bhi).besti
              (flmLoop a b alo ahi blo bhi).bestj
              (flmLoop a b alo ahi blo bhi).bestsize).2.1
            (extendFwd a b junkB false ahi bhi
              (extendBack a b junkB false alo blo
                (flmLoop a b alo ahi blo bhi).besti
                (flmLoop a b alo ahi blo bhi).besti
                (flmLoop a b alo ahi blo bhi).bestj
                (flmLoop a b alo ahi blo bhi).bestsize).1
              (extendBack a b junkB false alo blo
                (flmLoop a b alo ahi blo bhi).besti
                (flmLoop a b alo ahi blo bhi).besti
                (flmLoop a b alo ahi blo bhi).bestj
                (flmLoop a b alo ahi blo bhi).bestsize).2.1
              ahi
              (extendBack a b junkB false alo blo
                (flmLoop a b alo ahi blo bhi).besti
                (flmLoop a b alo ahi blo bhi).besti
                (flmLoop a b alo ahi blo bhi).bestj
                (flmLoop a b alo ahi blo bhi).bestsize).2.2)).1
         (extendBack a b junkB true alo blo
            (extendBack a b junkB false alo blo
              (flmLoop a b alo ahi blo bhi).besti
              (flmLoop a b alo ahi blo bhi).besti
              (flmLoop a b alo ahi blo bhi).bestj
              (flmLoop a b alo ahi blo bhi).bestsize).1
            (extendBack a b junkB false alo blo
              (flmLoop a b alo ahi blo bhi).besti
              (flmLoop a b alo ahi blo bhi).besti
              (flmLoop a b alo ahi blo bhi).bestj
              (flmLoop a b alo ahi blo bhi).bestsize).1
            (extendBack a b junkB false alo blo
              (flmLoop a b alo ahi blo bhi).besti
              (flmLoop a b alo ahi blo bhi).besti
              (flmLoop a b alo ahi blo bhi).bestj
              (flmLoop a b alo ahi blo bhi).bestsize).2.1
            (extendFwd a b junkB false ahi bhi
              (extendBack a b junkB false alo blo
                (flmLoop a b alo ahi blo bhi).besti
                (flmLoop a b alo ahi blo bhi).besti
                (flmLoop a b alo ahi blo bhi).bestj
                (flmLoop a b alo ahi blo bhi).bestsize).1
              (extendBack a b junkB false alo blo
                (flmLoop a b alo ahi blo bhi).besti
                (flmLoop a b alo ahi blo bhi).besti
                (flmLoop a b alo ahi blo bhi).bestj
                (flmLoop a b alo ahi blo bhi).bestsize).2.1
              ahi
              (extendBack a b junkB false alo blo
                (flmLoop a b alo ahi blo bhi).besti
                (flmLoop a b alo ahi blo bhi).besti
                (flmLoop a b alo ahi blo bhi).bestj
                (flmLoop a b alo ahi blo bhi).bestsize).2.2)).2.1
         ahi
         (extendBack a b junkB true alo blo
            (extendBack a b junkB false alo blo
              (flmLoop a b alo ahi blo bhi).besti
              (flmLoop a b alo ahi blo bhi).besti
              (flmLoop a b alo ahi blo bhi).bestj
              (flmLoop a b alo ahi blo bhi).bestsize).1
            (extendBack a b junkB false alo blo
              (flmLoop a b alo ahi blo bhi).besti
              (flmLoop a b alo ahi blo bhi).besti
              (flmLoop a b alo ahi blo bhi).bestj
              (flmLoop a b alo ahi blo bhi).bestsize).1
            (extendBack a b junkB false alo blo
              (flmLoop a b alo ahi blo bhi).besti
              (flmLoop a b alo ahi blo bhi).besti
              (flmLoop a b alo ahi blo bhi).bestj
              (flmLoop a b alo ahi blo bhi).bestsize).2.1
            (extendFwd a b junkB false ahi bhi
              (extendBack a b junkB false alo blo
                (flmLoop a b alo ahi blo bhi).besti
                (flmLoop a b alo ahi blo bhi).besti
                (flmLoop a b alo ahi blo bhi).bestj
                (flmLoop a b alo ahi blo bhi).bestsize).1
              (extendBack a b junkB false alo blo
                (flmLoop a b alo ahi blo bhi).besti
                (flmLoop a b alo ahi blo bhi).besti
                (flmLoop a b alo ahi blo bhi).bestj
                (flmLoop a b alo ahi blo bhi).bestsize).2.1
              ahi
              (extendBack a b junkB false alo blo
                (flmLoop a b alo ahi blo bhi).besti
                (flmLoop a b alo ahi blo bhi).besti
                (flmLoop a b alo ahi blo bhi).bestj
                (flmLoop a b alo ahi blo bhi).bestsize).2.2)).2.2) := rfl

theorem find_longest_match_self (a : List String) (junkB : String → Bool)
    (alo ahi : ℕ) (hle : alo ≤ ahi) (hlen : ahi ≤ a.length) :
    ∃ i k, find_longest_match a a junkB alo ahi alo ahi = (i, i, k) ∧
      alo ≤ i ∧ i + k ≤ ahi ∧ (alo < ahi → 1 ≤ k) := by
  have hinv := invDP_loop a alo ahi hle hlen
  obtain ⟨x, s1, he1, hx, hsum1, hs1⟩ :=
    extendBack_self a junkB false alo
      (flmLoop a a alo ahi alo ahi).besti
      (flmLoop a a alo ahi alo ahi).besti
      (flmLoop a a alo ahi alo ahi).bestsize hinv.h_lo
  have e1 : extendBack a a junkB false alo alo
      (flmLoop a a alo ahi alo ahi).besti
      (flmLoop a a alo ahi alo ahi).besti
      (flmLoop a a alo ahi alo ahi).bestj
      (flmLoop a a alo ahi alo ahi).bestsize = (x, x, s1) := by
    rw [← hinv.h_diag]
    exact he1
  have hxs1 : x + s1 ≤ ahi := by
    have := hinv.h_hi
    omega
  obtain ⟨hk2a, hk2b⟩ := extendFwd_mono a junkB false ahi ahi x s1
  have hk2 : x + extendFwd a a junkB false ahi ahi x x ahi s1 ≤ ahi :=
    hk2b hxs1
  obtain ⟨y, s3, he3, hy, hsum3, hs3⟩ :=
    extendBack_self a junkB true alo x x
      (extendFwd a a junkB false ahi ahi x x ahi s1) hx
  obtain ⟨hk4a, hk4b⟩ := extendFwd_mono a junkB true ahi ahi y s3
  refine ⟨y, extendFwd a a junkB true ahi ahi y y ahi s3, ?_, hy, ?_, ?_⟩
  · rw [find_longest_match_eq, e1]
    dsimp only
    rw [he3]
  · exact hk4b (by omega)
  · intro hlt
    by_cases hsz : 1 ≤ (flmLoop a a alo ahi alo ahi).bestsize
    · omega
    · have h0 : (flmLoop a a alo ahi alo ahi).bestsize = 0 := by omega
      have hbi : (flmLoop a a alo ahi alo ahi).besti = alo := hinv.h_zero h0
      have hxalo : x = alo ∧ s1 = 0 := by
        rw [hbi, h0] at hsum1
        omega
      by_cases hj : junkB (a.getD alo ("")) = false
      · have hpos : 1 ≤ extendFwd a a junkB false ahi ahi x x ahi s1 := by
          rw [hxalo.1, hxalo.2]
          exact extendFwd_pos a junkB false ahi ahi alo (by omega) hlt hj
        omega
      · by_cases hk20 : extendFwd a a junkB false ahi ahi x x ahi s1 = 0
        · have hyalo : y = alo ∧ s3 = 0 := by
            rw [hk20] at hsum3
            omega
          rw [hyalo.1, hyalo.2]
          exact extendFwd_pos a junkB true ahi ahi alo (by omega) hlt
            (by rw [Bool.not_eq_false] at hj; exact hj)
        · omega

theorem tiles_le : ∀ (L : List (ℕ × ℕ × ℕ)) (lo hi : ℕ),
    tiles lo hi L → lo ≤ hi := by
  intro L
  induction L with
  | nil =>
      intro lo hi h
      exact le_of_eq h
  | cons m rest ih =>
      intro lo hi h
      obtain ⟨h1, h2, h3, h4⟩ := h
      have := ih _ _ h4
      omega

theorem tiles_append : ∀ (L1 L2 : List (ℕ × ℕ × ℕ)) (lo mid hi : ℕ),
    tiles lo mid L1 → tiles mid hi L2 → tiles lo hi (L1 ++ L2) := by
  intro L1
  induction L1 with
  | nil =>
      intro L2 lo mid hi h1 h2
      have h3 : lo = mid := h1
      subst h3
      simpa using h2
  | cons m rest ih =>
      intro L2 lo mid hi h1 h2
      obtain ⟨ha, hb, hc, hd⟩ := h1
      exact ⟨ha, hb, hc, ih L2 _ mid hi hd h2⟩

theorem blocksAux_succ (a b : List String) (junkB : String → Bool)
    (fuel alo ahi blo bhi : ℕ) :
    blocksAux a b junkB (fuel + 1) alo ahi blo bhi =
      (if (find_longest_match a b junkB alo ahi blo bhi).2.2 = 0 then []
       else
         (if alo < (find_longest_match a b junkB alo ahi blo bhi).1 ∧
             blo < (find_longest_match a b junkB alo ahi blo bhi).2.1 then
            blocksAux a b junkB fuel alo
              (find_longest_match a b junkB alo ahi blo bhi).1 blo
              (find_longest_match a b junkB alo ahi blo bhi).2.1
          else [])
         ++ [find_longest_match a b junkB alo ahi blo bhi]
         ++ (if (find_longest_match a b junkB alo ahi blo bhi).1 +
               (find_longest_match a b junkB alo ahi blo bhi).2.2 < ahi ∧
               (find_longest_match a b junkB alo ahi blo bhi).2.1 +
               (find_longest_match a b junkB alo ahi blo bhi).2.2 < bhi then
              blocksAux a b junkB fuel
                ((find_longest_match a b junkB alo ahi blo bhi).1 +
                  (find_longest_match a b junkB alo ahi blo bhi).2.2) ahi
                ((find_longest_match a b junkB alo ahi blo bhi).2.1 +
                  (find_longest_match a b junkB alo ahi blo bhi).2.2) bhi
            else [])) := rfl

theorem blocksAux_self_tiles (a : List String) (junkB : String → Bool) :
    ∀ (fuel alo ahi : ℕ), alo ≤ ahi → ahi ≤ a.length → ahi - alo ≤ fuel →
      tiles alo ahi (blocksAux a a junkB fuel alo ahi alo ahi) := by
  intro fuel
  induction fuel with
  | zero =>
      intro alo ahi h1 h2 h3
      have h4 : alo = ahi := by omega
      exact h4
  | succ fuel ih =>
      intro alo ahi h1 h2 h3
      obtain ⟨i, k, hm, hi1, hi2, hpos⟩ :=
        find_longest_match_self a junkB alo ahi h1 h2
      rw [blocksAux_succ, hm]
      dsimp only
      by_cases hk : k = 0
      · rw [if_pos hk]
        have h4 : alo = ahi := by
          by_contra hne
          have := hpos (by omega)
          omega
        exact h4
      · rw [if_neg hk]
        have hk1 : 1 ≤ k := by omega
        have hleft : tiles alo i
            (if alo < i ∧ alo < i then
              blocksAux a a junkB fuel alo i alo i else []) := by
          by_cases hc : alo < i ∧ alo < i
          · rw [if_pos hc]
            exact ih alo i (by omega) (by omega) (by omega)
          · rw [if_neg hc]
            have h5 : alo = i := by omega
            exact h5
        have hright : tiles (i + k) ahi
            (if i + k < ahi ∧ i + k < ahi then
              blocksAux a a junkB fuel (i + k) ahi (i + k) ahi else []) := by
          by_cases hc : i + k < ahi ∧ i + k < ahi
          · rw [if_pos hc]
            exact ih (i + k) ahi (by omega) (by omega) (by omega)
          · rw [if_neg hc]
            have h5 : i + k = ahi := by omega
            exact h5
        rw [List.append_assoc]
        exact tiles_append _ _ alo i ahi hleft ⟨rfl, rfl, hk1, hright⟩

theorem mergeBlocks_tiles :
    ∀ (L : List (ℕ × ℕ × ℕ)) (lo hi p s : ℕ), tiles lo hi L → p + s = lo →
      mergeBlocks (p, p, s) L =
        (if s + (hi - lo) ≠ 0 then [(p, p, s + (hi - lo))] else []) := by
  intro L
  induction L with
  | nil =>
      intro lo hi p s h1 h2
      have h3 : lo = hi := h1
      subst h3
      show (if s ≠ 0 then [(p, p, s)] else []) = _
      have h4 : s + (lo - lo) = s := by omega
      rw [h4]
  | cons m rest ih =>
      intro lo hi p s h1 h2
      obtain ⟨ha, hb, hc, hd⟩ := h1
      have hcond : (p, p, s).1 + (p, p, s).2.2 = m.1 ∧
          (p, p, s).2.1 + (p, p, s).2.2 = m.2.1 := by
        dsimp only
        omega
      rw [mergeBlocks, if_pos hcond]
      have h5 := ih (lo + m.2.2) hi p (s + m.2.2) hd (by omega)
      have hle := tiles_le rest (lo + m.2.2) hi hd
      rw [h5]
      have harith : s + m.2.2 + (hi - (lo + m.2.2)) = s + (hi - lo) := by
        omega
      rw [harith]

theorem get_matching_blocks_self (a : List String) (junkB : String → Bool)
    (h : a ≠ []) :
    get_matching_blocks a a junkB =
      [(0, 0, a.length), (a.length, a.length, 0)] := by
  have htiles := blocksAux_self_tiles a junkB (a.length + a.length + 1) 0
    a.length (Nat.zero_le _) (le_refl _) (by omega)
  have hlen : a.length ≠ 0 := by
    simpa [List.length_eq_zero] using h
  unfold get_matching_blocks
  rw [mergeBlocks_tiles _ 0 a.length 0 0 htiles (by omega)]
  rw [if_pos (by omega)]
  have h0 : 0 + (a.length - 0) = a.length := by omega
  rw [h0]
  rfl

theorem ratioScore_self (a : List String) (junkB : String → Bool)
    (h : a ≠ []) : ratioScore a a junkB = 1 := by
  rw [ratioScore, get_matching_blocks_self a junkB h]
  have hm : matchesTotal [(0, 0, a.length), (a.length, a.length, 0)] =
      a.length := by
    show 0 + a.length + 0 = a.length
    omega
  rw [hm, calcRatio]
  have hlen : a.length ≠ 0 := by simpa [List.length_eq_zero] using h
  rw [if_pos (by omega)]
  have hq : (a.length : ℚ) ≠ 0 := by exact_mod_cast hlen
  push_cast
  field_simp
  ring

theorem mistakes_self (R : List String) (h : R ≠ []) :
    (alignWords R R).mistakes = [] := by
  rw [alignWords_mistakes, get_opcodes, get_matching_blocks_self R _ h]
  have hlen : R.length ≠ 0 := by simpa [List.length_eq_zero] using h
  have hnone : ∀ (x1 x2 x3 x4 : ℕ),
      mistakeOfOpcode R R ⟨"equal", x1, x2, x3, x4⟩ = none :=
    fun _ _ _ _ => rfl
  simp [opcodesAux, hlen, hnone]

/-- C7 (confirmed). For every non-empty word sequence `R`, aligning
    `R` against itself yields accuracy exactly `1.0` and an empty
    mistakes list — including under autojunk, i.e. for any junk
    predicate the matcher might use. -/
theorem align_identity (R : List String) (h : R ≠ []) :
    (alignWords R R).accuracy_score = 1 ∧ (alignWords R R).mistakes = [] :=
  ⟨by rw [alignWords_score]; exact ratioScore_self R (fun _ => false) h,
   mistakes_self R h⟩

/-- Witness for C7 at the singleton word sequence `["the"]`. -/
theorem align_identity_witness :
    (alignWords [("the")] [("the")]).accuracy_score = 1 ∧
      (alignWords [("the")] [("the")]).mistakes = [] :=
  align_identity [("the")] (by decide)

end UmeedCoach

